import Mathlib

/-!
Verification of the vocab-flashcards backend core (spaced-repetition
scheduler, daily session composer, sync merge engine, term normalization).

The Python source is shallowly embedded:
* timestamps are integers (seconds; one day = 86400) ordered as the
  corresponding datetimes are;
* Python floats are modelled as rationals, `round` as round-half-to-even;
* MongoDB collections are Lean lists in insertion order; `find_one` is the
  first list element matching the filter; `insert_one` appends and draws a
  fresh id from a counter; `update_one` by `_id` replaces in place;
* `stable_hash` content fingerprints are modelled by the tuple of hashed
  fields (injective up to SHA-256 collisions, which are assumed absent);
* strings are Lean `String`s, characters classified by ASCII code point
  (models the ASCII fragment of Python's `str.lower`, `\s` and `[\W_]`).
-/

namespace VocabApp

/-- Timestamps: seconds since the epoch, as integers. -/
abbrev Ts := Int

/-! ## SM-2 scheduler — src/app/services/srs_sm2.py -/

/-- Python source: `clamp(value, min_value, max_value) = max(min_value, min(max_value, value))`. -/
def clamp (value minValue maxValue : ℚ) : ℚ :=
  max minValue (min maxValue value)

/-- Python `round(x)`: round half to even (banker's rounding). -/
def roundHalfEven (q : ℚ) : ℤ :=
  let f := ⌊q⌋
  if q - f < 1/2 then f
  else if (1 : ℚ)/2 < q - f then f + 1
  else if Even f then f else f + 1

/-- Python `round(x, 2)`: round to two decimal places, half to even. -/
def round2 (q : ℚ) : ℚ :=
  (roundHalfEven (q * 100) : ℚ) / 100

/-- Scheduling state consumed by the scheduler (`Sm2State` dataclass). -/
structure Sm2State where
  easeFactor : ℚ
  intervalDays : ℤ
  repetitions : ℤ
  lapses : ℤ
deriving DecidableEq, Repr

/-- The update document returned by `apply_review` (all six keys). -/
structure ReviewUpdate where
  easeFactor : ℚ
  intervalDays : ℤ
  repetitions : ℤ
  lapses : ℤ
  dueAt : Ts
  lastReviewedAt : Ts
deriving DecidableEq, Repr

/-- Seconds in a day: `timedelta(days=interval)` adds `interval * 86400`. -/
def daySeconds : ℤ := 86400

/-- Python source: `apply_review(state, grade, now)`; raises `ValueError`
for a grade outside 0..5, modelled by `Except.error`. -/
def apply_review (state : Sm2State) (grade : ℤ) (now : Ts) :
    Except String ReviewUpdate :=
  if grade < 0 ∨ 5 < grade then
    .error "SM-2 grade must be in range 0..5"
  else if grade < 3 then
    .ok { easeFactor := round2 (clamp (state.easeFactor - 2/10) (13/10) 3)
          intervalDays := 0
          repetitions := 0
          lapses := state.lapses + 1
          dueAt := now
          lastReviewedAt := now }
  else
    let interval : ℤ :=
      if state.repetitions = 0 then 1
      else if state.repetitions = 1 then 6
      else max 1 (roundHalfEven ((state.intervalDays : ℚ) * state.easeFactor))
    let delta : ℚ := 1/10 - (5 - (grade : ℚ)) * (8/100 + (5 - (grade : ℚ)) * (2/100))
    .ok { easeFactor := round2 (clamp (state.easeFactor + delta) (13/10) 3)
          intervalDays := interval
          repetitions := state.repetitions + 1
          lapses := state.lapses
          dueAt := now + interval * daySeconds
          lastReviewedAt := now }

/-- Python source: `initial_state(now)` (the `lastReviewedAt` key is `None`). -/
structure InitialState where
  easeFactor : ℚ
  intervalDays : ℤ
  repetitions : ℤ
  lapses : ℤ
  dueAt : Ts
  lastReviewedAt : Option Ts
deriving DecidableEq, Repr

def initial_state (now : Ts) : InitialState :=
  { easeFactor := 25/10, intervalDays := 0, repetitions := 0, lapses := 0
    dueAt := now, lastReviewedAt := none }

/-- The update document returned by `apply_readd_penalty`: exactly four
keys; in particular it carries no `lapses` entry. -/
structure ReaddPenalty where
  easeFactor : ℚ
  repetitions : ℤ
  intervalDays : ℤ
  dueAt : Ts
deriving DecidableEq, Repr

/-- Python source: `apply_readd_penalty(state, now)`. -/
def apply_readd_penalty (state : Sm2State) (now : Ts) : ReaddPenalty :=
  { easeFactor := round2 (clamp (state.easeFactor - 2/10) (13/10) 3)
    repetitions := 0
    intervalDays := 0
    dueAt := now }

/-! ## Term normalization — src/app/utils/normalize.py

`normalize_term` lowercases, strips, collapses runs of whitespace to one
space, and trims leading/trailing `[\W_]+` (non-alphanumeric) runs. -/

/-- Python `\s` (ASCII fragment): space, tab, newline, carriage return,
vertical tab, form feed. -/
def isSpaceChar (c : Char) : Bool :=
  decide (c.toNat = 32 ∨ c.toNat = 9 ∨ c.toNat = 10 ∨ c.toNat = 13 ∨
    c.toNat = 11 ∨ c.toNat = 12)

/-- Complement of the regex class `[\W_]` (ASCII): `[0-9A-Za-z]`. -/
def isWordChar (c : Char) : Bool :=
  decide ((48 ≤ c.toNat ∧ c.toNat ≤ 57) ∨ (65 ≤ c.toNat ∧ c.toNat ≤ 90) ∨
    (97 ≤ c.toNat ∧ c.toNat ≤ 122))

/-- Remove a leading and a trailing run of characters satisfying `p`;
instantiated at `isSpaceChar` it is `str.strip()`, at `¬ isWordChar` it is
`re.sub(r"^[\W_]+|[\W_]+$", "", ·)`. -/
def trimEndsBy (p : Char → Bool) (l : List Char) : List Char :=
  ((l.dropWhile p).reverse.dropWhile p).reverse

/-- Python `re.sub(r"\s+", " ", ·)`: each maximal whitespace run becomes a
single space, written as a one-state scanner (`prevSpace` records whether
the scanner is inside a whitespace run). -/
def collapseWsAux (prevSpace : Bool) : List Char → List Char
  | [] => []
  | c :: cs =>
    if isSpaceChar c then
      if prevSpace then collapseWsAux true cs
      else ' ' :: collapseWsAux true cs
    else c :: collapseWsAux false cs

def collapseWs (l : List Char) : List Char := collapseWsAux false l

/-- Python source: `normalize_term(term)` on the character list. -/
def normalizeTermL (l : List Char) : List Char :=
  let s0 := (trimEndsBy isSpaceChar l).map Char.toLower
  let s1 := collapseWs s0
  let s2 := trimEndsBy (fun c => !isWordChar c) s1
  trimEndsBy isSpaceChar (collapseWs s2)

/-- Python source: `normalize_term` on strings. -/
def normalize_term (s : String) : String :=
  String.mk (normalizeTermL s.data)

/-- Python `str.strip()` on strings. -/
def pyStrip (s : String) : String :=
  String.mk (trimEndsBy isSpaceChar s.data)

/-- Python `str.lower()` on strings (ASCII model). -/
def pyLower (s : String) : String :=
  String.mk (s.data.map Char.toLower)

/-- Python truthiness of an optional string: `None` and `""` are falsy. -/
def truthyOpt (o : Option String) : Bool :=
  match o with
  | none => false
  | some s => s ≠ ""

/-- Python `a or alt` where `a` is an optional string and `alt` a string. -/
def orFalsy (o : Option String) (alt : String) : String :=
  match o with
  | none => alt
  | some s => if s = "" then alt else s

/-! ## Shared merge helpers — src/app/services/sync_merge.py -/

/-- Python source: `_merge_unique_strings(a, b)`: trim every element of
`a + b`, drop empties, keep first occurrences. -/
def mergeUniqueStrings (a b : Option (List String)) : List String :=
  go ((a.getD []) ++ (b.getD [])) []
where
  /-- The loop: `seen` is the list of already-kept texts. -/
  go : List String → List String → List String
  | [], acc => acc
  | item :: rest, acc =>
    let text := pyStrip item
    if text ≠ "" ∧ text ∉ acc then go rest (acc ++ [text])
    else go rest acc

/-- Word-family mapping: a Python `dict[str, list[str]]` in insertion
order (association list with unique keys). -/
abbrev WordFamily := List (String × List String)

/-- Python dict assignment `m[k] = v`: overwrite in place or append. -/
def setAssoc (m : WordFamily) (k : String) (v : List String) : WordFamily :=
  if m.any (fun p => p.1 = k) then
    m.map (fun p => if p.1 = k then (k, v) else p)
  else m ++ [(k, v)]

/-- Python dict lookup `m.get(k, [])`. -/
def getAssoc (m : WordFamily) (k : String) : List String :=
  match m.find? (fun p => p.1 = k) with
  | some p => p.2
  | none => []

/-- Python source: `_normalize_word_family(data)`. -/
def normalizeWordFamily (data : Option WordFamily) : WordFamily :=
  (data.getD []).foldl
    (fun out kv =>
      let role := pyLower (pyStrip kv.1)
      if role = "" then out
      else setAssoc out role (mergeUniqueStrings (some kv.2) none))
    []

/-- Python source: `_merge_word_family(left, right)`. -/
def mergeWordFamily (left right : Option WordFamily) : WordFamily :=
  (normalizeWordFamily right).foldl
    (fun merged rv =>
      setAssoc merged rv.1 (mergeUniqueStrings (some (getAssoc merged rv.1)) (some rv.2)))
    (normalizeWordFamily left)

/-! ## Data model

A MongoDB `ObjectId` string from a foreign snapshot is either empty/falsy
(`str(x or "")` of a missing id), a valid ObjectId (rendered from a local
integer id in the model), or some other non-empty string. -/

inductive SourceId
  | empty
  | oid (n : ℕ)
  | other (s : String)
deriving DecidableEq, Repr

/-- A timestamp value inside an untyped payload record: absent/falsy,
parseable (a datetime or a well-formed ISO string), or a truthy value
`_parse_datetime` cannot parse. -/
inductive RawTime
  | missing
  | good (t : Ts)
  | bad (s : String)
deriving DecidableEq, Repr

/-- Python source: `_parse_datetime(value, default)`. -/
def parseDatetime : RawTime → Ts → Ts
  | .good t, _ => t
  | .missing, d => d
  | .bad _, d => d

/-- Python truthiness `if value:` of a raw timestamp (datetimes and
non-empty strings are truthy; empty/absent are falsy). -/
def RawTime.truthy : RawTime → Bool
  | .missing => false
  | .good _ => true
  | .bad _ => true

/-- A card document as stored in `db.vocabs` (documents are created by
this application, so the always-initialized fields are total; `dueAt`,
`lastReviewedAt`, `lastReaddAt` keep the explicit `None`/absent handling
the merge code gives them). -/
structure Vocab where
  id : ℕ
  term : String
  termNormalized : String
  meanings : List String
  ipa : Option String
  exampleEn : Option String
  exampleVi : Option String
  mnemonic : Option String
  tags : List String
  collocations : List String
  phrases : List String
  wordFamily : WordFamily
  topics : List String
  cefrLevel : Option String
  ieltsBand : Option ℚ
  createdAt : Ts
  updatedAt : Ts
  easeFactor : ℚ
  intervalDays : ℤ
  repetitions : ℤ
  lapses : ℤ
  dueAt : Option Ts
  lastReviewedAt : Option Ts
  readdCount : ℤ
  lastReaddAt : Option Ts
deriving DecidableEq, Repr

/-- A review log document as stored in `db.review_logs`. -/
structure DbLog where
  vocabId : ℕ
  mode : String
  questionType : String
  grade : ℤ
  userAnswer : Option String
  isNearCorrect : Option Bool
  createdAt : Ts
deriving DecidableEq, Repr

/-- Payload of an event document (the import code only ever carries an
incoming payload through opaquely or writes the final report). -/
inductive EventPayload
  | carried (tag : Option String)
  | reportOf (addedVocabs updatedVocabs addedLogs conflicts : ℕ)
      (sourceSchemaVersion : String)
deriving DecidableEq, Repr

/-- An event document as stored in `db.events`. -/
structure DbEvent where
  type : String
  payload : EventPayload
  createdAt : Ts
deriving DecidableEq, Repr

/-- The document store: collections in insertion order plus the ObjectId
generator for `db.vocabs` inserts. -/
structure Store where
  vocabs : List Vocab
  reviewLogs : List DbLog
  events : List DbEvent
  nextId : ℕ
deriving DecidableEq, Repr

/-- An untyped incoming card record (`dict[str, Any]`): every field may be
absent (`none`), and timestamps may additionally be unparsable. -/
structure RawVocab where
  sourceId : SourceId
  term : Option String
  termNormalized : Option String
  meanings : Option (List String)
  ipa : Option String
  exampleEn : Option String
  exampleVi : Option String
  mnemonic : Option String
  tags : Option (List String)
  collocations : Option (List String)
  phrases : Option (List String)
  wordFamily : Option WordFamily
  topics : Option (List String)
  cefrLevel : Option String
  ieltsBand : Option ℚ
  createdAt : RawTime
  updatedAt : RawTime
  easeFactor : Option ℚ
  intervalDays : Option ℤ
  repetitions : Option ℤ
  lapses : Option ℤ
  dueAt : RawTime
  lastReviewedAt : RawTime
  readdCount : Option ℤ
  lastReaddAt : RawTime
deriving DecidableEq, Repr

/-- An untyped incoming review log record. -/
structure RawLog where
  vocabId : SourceId
  mode : Option String
  questionType : Option String
  grade : Option ℤ
  userAnswer : Option String
  isNearCorrect : Option Bool
  createdAt : RawTime
deriving DecidableEq, Repr

/-- An untyped incoming event record. -/
structure RawEvent where
  type : Option String
  payload : Option String
  createdAt : RawTime
deriving DecidableEq, Repr

/-- The import payload (`SyncExport` shape): `schemaVersion` plus the three
collections. -/
structure Payload where
  schemaVersion : String
  vocabs : List RawVocab
  review_logs : List RawLog
  events : List RawEvent
deriving DecidableEq, Repr

/-- The report returned by `import_payload`. -/
structure Report where
  addedVocabs : ℕ
  updatedVocabs : ℕ
  addedLogs : ℕ
  conflicts : ℕ
deriving DecidableEq, Repr

/-! ## Sync merge engine — src/app/services/sync_merge.py -/

/-- Python source: `_safe_min_datetime(left, right, fallback)`. -/
def safeMinDatetime (left right : Option Ts) (fallback : Ts) : Ts :=
  match left, right with
  | none, none => fallback
  | none, some r => r
  | some l, none => l
  | some l, some r => min l r

/-- Python source: `_safe_max_datetime(left, right)`. -/
def safeMaxDatetime (left right : Option Ts) : Option Ts :=
  match left, right with
  | none, r => r
  | some l, none => some l
  | some l, some r => some (max l r)

/-- Python source: `_log_dedup_hash` fingerprints a log by the five fields
below; the SHA-256 content hash is modelled by the field tuple itself. -/
structure LogFp where
  vocabId : ℕ
  createdAt : Ts
  grade : ℤ
  mode : String
  questionType : String
deriving DecidableEq, Repr

def logFp (l : DbLog) : LogFp :=
  { vocabId := l.vocabId, createdAt := l.createdAt, grade := l.grade
    mode := l.mode, questionType := l.questionType }

/-- Python `payload.get(f) or None`: an empty string collapses to `None`. -/
def presentOpt (o : Option String) : Option String :=
  if truthyOpt o then o else none

/-- The typed/coerced `incoming_doc` built at lines 160-189 of
`sync_merge.py` for one incoming record (given the already computed
non-empty `term_norm`). -/
structure IncomingDoc where
  term : String
  termNormalized : String
  meanings : List String
  ipa : Option String
  exampleEn : Option String
  exampleVi : Option String
  mnemonic : Option String
  tags : List String
  collocations : List String
  phrases : List String
  wordFamily : WordFamily
  topics : List String
  cefrLevel : Option String
  ieltsBand : Option ℚ
  createdAt : Ts
  updatedAt : Ts
  easeFactor : ℚ
  intervalDays : ℤ
  repetitions : ℤ
  lapses : ℤ
  dueAt : Ts
  lastReviewedAt : Option Ts
  readdCount : ℤ
  lastReaddAt : Option Ts
deriving DecidableEq, Repr

def buildIncomingDoc (r : RawVocab) (termNorm : String) (now : Ts) : IncomingDoc :=
  { term := orFalsy r.term termNorm
    termNormalized := termNorm
    meanings := mergeUniqueStrings r.meanings none
    ipa := (r.ipa).map pyStrip
    exampleEn := presentOpt r.exampleEn
    exampleVi := presentOpt r.exampleVi
    mnemonic := presentOpt r.mnemonic
    tags := mergeUniqueStrings r.tags none
    collocations := mergeUniqueStrings r.collocations none
    phrases := mergeUniqueStrings r.phrases none
    wordFamily := normalizeWordFamily r.wordFamily
    topics := mergeUniqueStrings r.topics none
    cefrLevel := r.cefrLevel
    ieltsBand := r.ieltsBand
    createdAt := parseDatetime r.createdAt now
    updatedAt := parseDatetime r.updatedAt now
    easeFactor := (r.easeFactor).getD (25/10)
    intervalDays := (r.intervalDays).getD 0
    repetitions := (r.repetitions).getD 0
    lapses := (r.lapses).getD 0
    dueAt := parseDatetime r.dueAt now
    lastReviewedAt :=
      if r.lastReviewedAt.truthy then some (parseDatetime r.lastReviewedAt now) else none
    readdCount := (r.readdCount).getD 0
    lastReaddAt :=
      if r.lastReaddAt.truthy then some (parseDatetime r.lastReaddAt now) else none }

/-- The new card inserted verbatim from an unmatched `incoming_doc`. -/
def vocabOfIncoming (id : ℕ) (d : IncomingDoc) : Vocab :=
  { id := id, term := d.term, termNormalized := d.termNormalized
    meanings := d.meanings, ipa := d.ipa, exampleEn := d.exampleEn
    exampleVi := d.exampleVi, mnemonic := d.mnemonic, tags := d.tags
    collocations := d.collocations, phrases := d.phrases
    wordFamily := d.wordFamily, topics := d.topics, cefrLevel := d.cefrLevel
    ieltsBand := d.ieltsBand, createdAt := d.createdAt, updatedAt := d.updatedAt
    easeFactor := d.easeFactor, intervalDays := d.intervalDays
    repetitions := d.repetitions, lapses := d.lapses, dueAt := some d.dueAt
    lastReviewedAt := d.lastReviewedAt, readdCount := d.readdCount
    lastReaddAt := d.lastReaddAt }

/-- Per-field resolution of one free-text `Option` field (lines 217-224):
adopted from the incoming side only when `incoming_updated >=
existing_updated` and the incoming value is truthy. -/
def resolveTextOpt (ge : Bool) (exVal incVal : Option String) : Option String :=
  if ge ∧ truthyOpt incVal then incVal else exVal

/-- Conflict contribution of one free-text `Option` field. -/
def conflictTextOpt (ge : Bool) (exVal incVal : Option String) : ℕ :=
  if ge ∧ truthyOpt exVal ∧ truthyOpt incVal ∧ exVal ≠ incVal then 1 else 0

/-- Field-by-field merge of a matched pair (lines 200-236), returning the
merged document and the number of text-field conflicts counted. -/
def mergeVocabDoc (ex : Vocab) (inc : IncomingDoc) (now : Ts) : Vocab × ℕ :=
  let ge : Bool := decide (ex.updatedAt ≤ inc.updatedAt)
  let conflicts :=
    (if ge ∧ ex.term ≠ "" ∧ inc.term ≠ "" ∧ ex.term ≠ inc.term then 1 else 0)
    + conflictTextOpt ge ex.ipa inc.ipa
    + conflictTextOpt ge ex.exampleEn inc.exampleEn
    + conflictTextOpt ge ex.exampleVi inc.exampleVi
    + conflictTextOpt ge ex.mnemonic inc.mnemonic
  let merged : Vocab :=
    { ex with
      meanings := mergeUniqueStrings (some ex.meanings) (some inc.meanings)
      tags := mergeUniqueStrings (some ex.tags) (some inc.tags)
      collocations := mergeUniqueStrings (some ex.collocations) (some inc.collocations)
      phrases := mergeUniqueStrings (some ex.phrases) (some inc.phrases)
      topics := mergeUniqueStrings (some ex.topics) (some inc.topics)
      wordFamily := mergeWordFamily (some ex.wordFamily) (some inc.wordFamily)
      cefrLevel := if truthyOpt inc.cefrLevel then inc.cefrLevel else ex.cefrLevel
      ieltsBand := match inc.ieltsBand with
        | some b => some b
        | none => ex.ieltsBand
      term := if ge ∧ inc.term ≠ "" then inc.term else ex.term
      ipa := resolveTextOpt ge ex.ipa inc.ipa
      exampleEn := resolveTextOpt ge ex.exampleEn inc.exampleEn
      exampleVi := resolveTextOpt ge ex.exampleVi inc.exampleVi
      mnemonic := resolveTextOpt ge ex.mnemonic inc.mnemonic
      createdAt := min ex.createdAt inc.createdAt
      updatedAt := max ex.updatedAt inc.updatedAt
      repetitions := min ex.repetitions inc.repetitions
      intervalDays := min ex.intervalDays inc.intervalDays
      easeFactor := min ex.easeFactor inc.easeFactor
      dueAt := some (safeMinDatetime ex.dueAt (some inc.dueAt) now)
      lapses := max ex.lapses inc.lapses
      readdCount := max ex.readdCount inc.readdCount
      lastReviewedAt := safeMaxDatetime ex.lastReviewedAt inc.lastReviewedAt
      lastReaddAt := safeMaxDatetime ex.lastReaddAt inc.lastReaddAt }
  (merged, conflicts)

/-- Stable insertion of one element into a sorted list. -/
def insertSorted {α : Type} (le : α → α → Bool) (x : α) : List α → List α
  | [] => [x]
  | y :: ys => if le x y then x :: y :: ys else y :: insertSorted le x ys

/-- Stable sort (models Python's stable `list.sort(key=...)`; only
determinism and stability are relied on). -/
def sortBy {α : Type} (le : α → α → Bool) : List α → List α
  | [] => []
  | x :: xs => insertSorted le x (sortBy le xs)

/-- Sort key of an incoming card (line 147-149). -/
def rawVocabKey (r : RawVocab) : String :=
  normalize_term (orFalsy r.termNormalized (orFalsy r.term ""))

def rawVocabLe (a b : RawVocab) : Bool :=
  decide (rawVocabKey a ≤ rawVocabKey b)

/-- Sort key of an incoming log: `str(doc.get("createdAt") or "")`
(line 251); only determinism of the ordering matters. -/
def rawTimeKey : RawTime → String
  | .missing => ""
  | .good t => "dt " ++ toString t
  | .bad s => s

def rawLogLe (a b : RawLog) : Bool :=
  decide (rawTimeKey a.createdAt ≤ rawTimeKey b.createdAt)

/-- The `source_vocab_to_local` mapping: a dict keyed by source-id string
(insertion-ordered association list, assignment overwrites). -/
abbrev IdMapping := List (SourceId × ℕ)

def setMapping (m : IdMapping) (k : SourceId) (v : ℕ) : IdMapping :=
  if m.any (fun p => p.1 = k) then
    m.map (fun p => if p.1 = k then (k, v) else p)
  else m ++ [(k, v)]

def lookupMapping (m : IdMapping) (k : SourceId) : Option ℕ :=
  (m.find? (fun p => p.1 = k)).map (fun p => p.2)

/-- Accumulator of the card-reconciliation loop (lines 151-242). -/
structure VocabAcc where
  store : Store
  mapping : IdMapping
  addedVocabs : ℕ
  updatedVocabs : ℕ
  conflicts : ℕ
deriving Repr

/-- One iteration of the card-reconciliation loop. -/
def stepVocab (now : Ts) (acc : VocabAcc) (r : RawVocab) : VocabAcc :=
  let termNorm := rawVocabKey r
  if termNorm = "" then acc
  else
    let incDoc := buildIncomingDoc r termNorm now
    match acc.store.vocabs.find? (fun v => v.termNormalized = termNorm) with
    | none =>
      let v := vocabOfIncoming acc.store.nextId incDoc
      { acc with
        store := { acc.store with
                   vocabs := acc.store.vocabs ++ [v]
                   nextId := acc.store.nextId + 1 }
        mapping := setMapping acc.mapping r.sourceId v.id
        addedVocabs := acc.addedVocabs + 1 }
    | some ex =>
      let mc := mergeVocabDoc ex incDoc now
      let acc1 := { acc with
                    mapping := setMapping acc.mapping r.sourceId ex.id
                    conflicts := acc.conflicts + mc.2 }
      if mc.1 = ex then acc1
      else
        { acc1 with
          store := { acc1.store with
                     vocabs := acc1.store.vocabs.map
                       (fun v => if v.id = ex.id then mc.1 else v) }
          updatedVocabs := acc1.updatedVocabs + 1 }

/-- Resolution of an incoming log's card reference (lines 254-264):
mapping lookup first, then a direct `_id` lookup for valid ObjectIds. -/
def resolveLogVocab (vocabs : List Vocab) (mapping : IdMapping)
    (sid : SourceId) : Option ℕ :=
  match lookupMapping mapping sid with
  | some n => some n
  | none =>
    match sid with
    | .oid n => if vocabs.any (fun v => v.id = n) then some n else none
    | _ => none

/-- The `normalized_log` built at lines 266-274. -/
def normalizeLog (lid : ℕ) (r : RawLog) (now : Ts) : DbLog :=
  { vocabId := lid
    mode := orFalsy r.mode "flip"
    questionType := orFalsy r.questionType "term_to_meaning"
    grade := (r.grade).getD 0
    userAnswer := r.userAnswer
    isNearCorrect := r.isNearCorrect
    createdAt := parseDatetime r.createdAt now }

/-- Accumulator of the log-reconciliation loop: dedup fingerprints seen so
far and the logs accepted for bulk insertion. -/
structure LogAcc where
  hashes : List LogFp
  toInsert : List DbLog
deriving Repr

/-- One iteration of the log-reconciliation loop (lines 253-281). -/
def stepLog (vocabs : List Vocab) (mapping : IdMapping) (now : Ts)
    (acc : LogAcc) (r : RawLog) : LogAcc :=
  match resolveLogVocab vocabs mapping r.vocabId with
  | none => acc
  | some lid =>
    let nl := normalizeLog lid r now
    let fp := logFp nl
    if fp ∈ acc.hashes then acc
    else { hashes := acc.hashes ++ [fp], toInsert := acc.toInsert ++ [nl] }

/-- An incoming event appended as-is (lines 287-296). -/
def eventOfRaw (now : Ts) (e : RawEvent) : DbEvent :=
  { type := orFalsy e.type "IMPORT"
    payload := .carried e.payload
    createdAt := parseDatetime e.createdAt now }

/-- The card-reconciliation phase of `import_payload`: the incoming cards
sorted by normalized term, folded through `stepVocab`. -/
def vocabPhase (s : Store) (p : Payload) (now : Ts) : VocabAcc :=
  (sortBy rawVocabLe p.vocabs).foldl (stepVocab now)
    { store := s, mapping := [], addedVocabs := 0, updatedVocabs := 0, conflicts := 0 }

/-- The log-reconciliation phase: pre-existing fingerprints are collected,
then the incoming logs (sorted by their raw `createdAt` key) are folded
through `stepLog`. -/
def logPhase (s1 : Store) (mapping : IdMapping) (p : Payload) (now : Ts) : LogAcc :=
  (sortBy rawLogLe p.review_logs).foldl (stepLog s1.vocabs mapping now)
    { hashes := s1.reviewLogs.map logFp, toInsert := [] }

/-- Python source: `import_payload(payload)` against store `s` at time
`now`; returns the updated store and the report. -/
def import_payload (s : Store) (p : Payload) (now : Ts) : Store × Report :=
  let va := vocabPhase s p now
  let la := logPhase va.store va.mapping p now
  let report : Report :=
    { addedVocabs := va.addedVocabs, updatedVocabs := va.updatedVocabs
      addedLogs := la.toInsert.length, conflicts := va.conflicts }
  let importEvent : DbEvent :=
    { type := "IMPORT"
      payload := .reportOf report.addedVocabs report.updatedVocabs
          report.addedLogs report.conflicts p.schemaVersion
      createdAt := now }
  ({ va.store with
     reviewLogs := va.store.reviewLogs ++ la.toInsert
     events := va.store.events ++ p.events.map (eventOfRaw now) ++ [importEvent] },
   report)

/-- Number of stored logs carrying a given content fingerprint. -/
def countFp (logs : List DbLog) (f : LogFp) : ℕ :=
  (logs.filter (fun l => logFp l = f)).length

/-- The id of the first stored card whose `termNormalized` equals `tn`
(what `find_one({"termNormalized": tn})` resolves to). -/
def findIdByTn (vocabs : List Vocab) (tn : String) : Option ℕ :=
  (vocabs.find? (fun v => v.termNormalized = tn)).map (fun v => v.id)

/-- Store well-formedness: card ids are pairwise distinct and below the
id generator (true of every store the application builds). -/
def StoreWF (s : Store) : Prop :=
  (s.vocabs.map (fun v => v.id)).Nodup ∧ ∀ v ∈ s.vocabs, v.id < s.nextId

instance (s : Store) : Decidable (StoreWF s) := by
  unfold StoreWF
  infer_instance

/-- Route `POST /sync/import` (src/app/routes/sync.py): any schema version
other than "v1" fails the call before `import_payload` runs; the raised
error is modelled by `Except.error`, leaving the store untouched. -/
def import_sync (p : Payload) (s : Store) (now : Ts) :
    Except String (Store × Report) :=
  if p.schemaVersion ≠ "v1" then .error "Unsupported schemaVersion"
  else .ok (import_payload s p now)

/-! ## Session composer — src/app/services/session.py

Day boundaries (`today_bounds`, `yesterday_bounds`) are computed by the
time-zone collaborator; they enter the model as parameters. Mongo sorts
are modelled by the deterministic stable `sortBy` (ascending sorts place
documents with an absent key first). -/

/-- Comparator for ascending sort on an optional timestamp field. -/
def optTsLe (a b : Option Ts) : Bool :=
  match a, b with
  | none, _ => true
  | some _, none => false
  | some x, some y => decide (x ≤ y)

/-- Bucket 1: cards created within today's bounds, by `createdAt`
ascending, unbounded. -/
def todayNewBucket (vocabs : List Vocab) (tStart tEnd : Ts) : List Vocab :=
  sortBy (fun a b => decide (a.createdAt ≤ b.createdAt))
    (vocabs.filter (fun v => decide (tStart ≤ v.createdAt ∧ v.createdAt < tEnd)))

/-- Bucket 2: due cards (`dueAt <= now`), excluding today's new cards, by
`dueAt` ascending, capped at `limit`. -/
def dueBucket (vocabs : List Vocab) (now : Ts) (todayIds : List ℕ)
    (limit : ℕ) : List Vocab :=
  (sortBy (fun a b => optTsLe a.dueAt b.dueAt)
    (vocabs.filter (fun v =>
      (match v.dueAt with
       | some d => decide (d ≤ now)
       | none => false) && !todayIds.contains v.id))).take limit

/-- The distinct `vocabId`s of yesterday's low-grade review logs. -/
def lowGradeIds (logs : List DbLog) (yStart yEnd : Ts) : List ℕ :=
  ((logs.filter (fun l =>
      decide (yStart ≤ l.createdAt ∧ l.createdAt < yEnd ∧ l.grade < 3))).map
    (fun l => l.vocabId)).dedup

/-- Bucket 3: yesterday-not-mastered cards, by `lastReviewedAt` ascending,
capped at `limit`. -/
def yesterdayBucket (vocabs : List Vocab) (logs : List DbLog)
    (yStart yEnd : Ts) (todayIds : List ℕ) (limit : ℕ) : List Vocab :=
  let lows := lowGradeIds logs yStart yEnd
  (sortBy (fun a b => optTsLe a.lastReviewedAt b.lastReviewedAt)
    (vocabs.filter (fun v =>
      (match v.lastReviewedAt with
       | some t => decide (yStart ≤ t ∧ t < yEnd)
       | none => false)
      && !todayIds.contains v.id
      && (lows.contains v.id || decide (0 < v.readdCount) ||
          decide (0 < v.lapses ∧ yStart ≤ v.updatedAt ∧ v.updatedAt < yEnd))))).take limit

/-- Bucket 4: struggle cards (`readdCount > 0`), by `readdCount`
descending then `dueAt` ascending, capped at `limit`. -/
def struggleBucket (vocabs : List Vocab) (todayIds : List ℕ)
    (limit : ℕ) : List Vocab :=
  (sortBy (fun a b =>
      decide (b.readdCount < a.readdCount) ||
      (decide (a.readdCount = b.readdCount) && optTsLe a.dueAt b.dueAt))
    (vocabs.filter (fun v =>
      decide (0 < v.readdCount) && !todayIds.contains v.id))).take limit

/-- Inner loop of the `ordered_review` builder: add one bucket's docs,
skipping already-present ids and breaking once `limit` entries exist. -/
def addBucket (limit : ℕ) (acc : List Vocab) : List Vocab → List Vocab
  | [] => acc
  | d :: ds =>
    if (acc.map (fun v => v.id)).contains d.id then addBucket limit acc ds
    else
      let acc' := acc ++ [d]
      if limit ≤ acc'.length then acc' else addBucket limit acc' ds

/-- The `ordered_review` double loop (lines 61-71) over buckets 2-4 with
its early exit once `limit` entries are collected. -/
def composeReview (limit : ℕ) (due yest strug : List Vocab) : List Vocab :=
  let a1 := addBucket limit [] due
  if limit ≤ a1.length then a1
  else
    let a2 := addBucket limit a1 yest
    if limit ≤ a2.length then a2
    else addBucket limit a2 strug

/-- Python source: `get_today_session(limit)` returning
`(todayNew, review)`. -/
def get_today_session (s : Store) (now tStart tEnd yStart yEnd : Ts)
    (limit : ℕ) : List Vocab × List Vocab :=
  let todayNew := todayNewBucket s.vocabs tStart tEnd
  let todayIds := todayNew.map (fun v => v.id)
  let due := dueBucket s.vocabs now todayIds limit
  let yest := yesterdayBucket s.vocabs s.reviewLogs yStart yEnd todayIds limit
  let strug := struggleBucket s.vocabs todayIds limit
  (todayNew, composeReview limit due yest strug)

/-- Specification-side first-occurrence dedup by card id (used only in
theorem statements to characterize the loop). -/
def dedupByIdFrom (seen : List ℕ) : List Vocab → List Vocab
  | [] => []
  | v :: vs =>
    if seen.contains v.id then dedupByIdFrom seen vs
    else v :: dedupByIdFrom (seen ++ [v.id]) vs

/-! ## Card creation re-add path — src/app/routes/vocab.py -/

/-- The request body of `POST /vocab` (fields the re-add path reads). -/
structure VocabCreate where
  term : String
  meanings : List String
  ipa : Option String
  exampleEn : Option String
  exampleVi : Option String
  mnemonic : Option String
  tags : List String
  collocations : List String
  phrases : List String
  wordFamily : Option WordFamily
  topics : List String
  cefrLevel : Option String
  ieltsBand : Option ℚ
deriving DecidableEq, Repr

/-- Python source: `Sm2State.from_doc(doc)`. -/
def sm2FromDoc (v : Vocab) : Sm2State :=
  { easeFactor := v.easeFactor, intervalDays := v.intervalDays
    repetitions := v.repetitions, lapses := v.lapses }

/-- The `DuplicateKeyError` branch of `create_vocab` (lines 165-199): the
single `update_one` applied to the existing card, with
`$set {..., **apply_readd_penalty(...)}` and `$inc {"readdCount": 1}`. -/
def applyReaddDb (ex : Vocab) (payload : VocabCreate) (now : Ts) : Vocab :=
  let pen := apply_readd_penalty (sm2FromDoc ex) now
  { ex with
    meanings := mergeUniqueStrings (some ex.meanings) (some payload.meanings)
    collocations := mergeUniqueStrings (some ex.collocations) (some payload.collocations)
    phrases := mergeUniqueStrings (some ex.phrases) (some payload.phrases)
    topics := mergeUniqueStrings (some ex.topics) (some payload.topics)
    wordFamily := mergeWordFamily (some ex.wordFamily) payload.wordFamily
    cefrLevel := if truthyOpt payload.cefrLevel then payload.cefrLevel else ex.cefrLevel
    ieltsBand := match payload.ieltsBand with
      | some b => some b
      | none => ex.ieltsBand
    ipa := match payload.ipa with
      | some s => if pyStrip s ≠ "" then some (pyStrip s) else ex.ipa
      | none => ex.ipa
    updatedAt := now
    lastReaddAt := some now
    easeFactor := pen.easeFactor
    repetitions := pen.repetitions
    intervalDays := pen.intervalDays
    dueAt := some pen.dueAt
    readdCount := ex.readdCount + 1 }

/-! ### Bounds for `roundHalfEven` and `round2` -/

theorem roundHalfEven_ge (lo : ℤ) (q : ℚ) (h : (lo : ℚ) ≤ q) :
    lo ≤ roundHalfEven q := by
  have hf : lo ≤ ⌊q⌋ := Int.le_floor.mpr h
  unfold roundHalfEven
  dsimp only
  split
  · exact hf
  · split
    · omega
    · split <;> omega

theorem roundHalfEven_le (hi : ℤ) (q : ℚ) (h : q ≤ (hi : ℚ)) :
    roundHalfEven q ≤ hi := by
  have hceil : ⌈q⌉ ≤ hi := Int.ceil_le.mpr h
  have hfc : ⌊q⌋ ≤ ⌈q⌉ := Int.floor_le_ceil q
  unfold roundHalfEven
  dsimp only
  split
  · omega
  · rename_i hlt
    push_neg at hlt
    have hq : (⌊q⌋ : ℚ) < q := by
      have h2 : (0 : ℚ) < 1/2 := by norm_num
      nlinarith [hlt]
    have : ⌊q⌋ + 1 ≤ ⌈q⌉ := by
      have := Int.lt_ceil.mpr hq
      omega
    split
    · omega
    · split <;> omega

theorem round2_bounds (q lo hi : ℚ) (hlo : lo ≤ q) (hhi : q ≤ hi)
    (nlo nhi : ℤ) (elo : lo = (nlo : ℚ) / 100) (ehi : hi = (nhi : ℚ) / 100) :
    lo ≤ round2 q ∧ round2 q ≤ hi := by
  have h1 : (nlo : ℚ) ≤ q * 100 := by
    rw [elo] at hlo
    linarith
  have h2 : q * 100 ≤ (nhi : ℚ) := by
    rw [ehi] at hhi
    linarith
  have g1 := roundHalfEven_ge nlo _ h1
  have g2 := roundHalfEven_le nhi _ h2
  have g1' : (nlo : ℚ) ≤ (roundHalfEven (q * 100) : ℚ) := by exact_mod_cast g1
  have g2' : (roundHalfEven (q * 100) : ℚ) ≤ (nhi : ℚ) := by exact_mod_cast g2
  constructor
  · rw [elo]
    unfold round2
    linarith
  · rw [ehi]
    unfold round2
    linarith

theorem clamp_bounds (v lo hi : ℚ) (h : lo ≤ hi) :
    lo ≤ clamp v lo hi ∧ clamp v lo hi ≤ hi := by
  unfold clamp
  constructor
  · exact le_max_left _ _
  · exact max_le h (min_le_left _ _)

/-! ## Claim C5 -/

/-- C5: for every input state (any easeFactor, intervalDays, repetitions,
lapses) and every grade in 0..5, the easeFactor in the state returned by
`apply_review` lies within [1.3, 3.0]. -/
theorem C5_apply_review_ease_bounded (s : Sm2State) (g : ℤ) (now : Ts)
    (h0 : 0 ≤ g) (h5 : g ≤ 5) :
    ∃ u, apply_review s g now = .ok u ∧
      13/10 ≤ u.easeFactor ∧ u.easeFactor ≤ 3 := by
  unfold apply_review
  rw [if_neg (by omega : ¬(g < 0 ∨ 5 < g))]
  by_cases h3 : g < 3
  · rw [if_pos h3]
    refine ⟨_, rfl, ?_⟩
    have hc := clamp_bounds (s.easeFactor - 2/10) (13/10) 3 (by norm_num)
    exact round2_bounds _ _ _ hc.1 hc.2 130 300 (by norm_num) (by norm_num)
  · rw [if_neg h3]
    refine ⟨_, rfl, ?_⟩
    have hc := clamp_bounds
      (s.easeFactor + (1/10 - (5 - (g : ℚ)) * (8/100 + (5 - (g : ℚ)) * (2/100))))
      (13/10) 3 (by norm_num)
    exact round2_bounds _ _ _ hc.1 hc.2 130 300 (by norm_num) (by norm_num)

/-- Witness for C5 at state (2.5, 0, 0, 0), grade 4. -/
theorem C5_apply_review_ease_bounded_witness :
    (0 : ℤ) ≤ 4 ∧ (4 : ℤ) ≤ 5 ∧
      ∃ u, apply_review ⟨25/10, 0, 0, 0⟩ 4 0 = .ok u ∧
        13/10 ≤ u.easeFactor ∧ u.easeFactor ≤ 3 :=
  ⟨by decide, by decide,
    C5_apply_review_ease_bounded ⟨25/10, 0, 0, 0⟩ 4 0 (by decide) (by decide)⟩

/-! ## Claim C6 -/

/-- C6: for every input state and every grade in 0..2 (a lapse),
`apply_review` returns repetitions = 0, intervalDays = 0, lapses + 1,
easeFactor = round2(clamp(ease - 0.2, 1.3, 3.0)), dueAt = now and
lastReviewedAt = now. -/
theorem C6_apply_review_lapse (s : Sm2State) (g : ℤ) (now : Ts)
    (h0 : 0 ≤ g) (h3 : g < 3) :
    apply_review s g now = .ok
      { easeFactor := round2 (clamp (s.easeFactor - 2/10) (13/10) 3)
        intervalDays := 0
        repetitions := 0
        lapses := s.lapses + 1
        dueAt := now
        lastReviewedAt := now } := by
  unfold apply_review
  rw [if_neg (by omega : ¬(g < 0 ∨ 5 < g)), if_pos h3]

/-- Witness for C6 at state (2, 5, 7, 9), grade 1, now = 42. -/
theorem C6_apply_review_lapse_witness :
    (0 : ℤ) ≤ 1 ∧ (1 : ℤ) < 3 ∧
      apply_review ⟨2, 5, 7, 9⟩ 1 42 = .ok
        { easeFactor := round2 (clamp (2 - 2/10) (13/10) 3)
          intervalDays := 0
          repetitions := 0
          lapses := 9 + 1
          dueAt := 42
          lastReviewedAt := 42 } :=
  ⟨by decide, by decide, C6_apply_review_lapse ⟨2, 5, 7, 9⟩ 1 42 (by decide) (by decide)⟩

/-! ## Claim C7 -/

/-- C7: for every input state and every grade in 3..5 (success),
`apply_review` returns intervalDays = 1 if repetitions was 0, 6 if it was
1, else max(1, round(intervalDays * easeFactor)); repetitions + 1;
easeFactor = round2(clamp(ease + (0.1 - (5-g)(0.08 + (5-g)·0.02)), 1.3,
3.0)); and dueAt = now + new intervalDays in days. -/
theorem C7_apply_review_success (s : Sm2State) (g : ℤ) (now : Ts)
    (h3 : 3 ≤ g) (h5 : g ≤ 5) :
    apply_review s g now = .ok
      { easeFactor := round2 (clamp
          (s.easeFactor + (1/10 - (5 - (g : ℚ)) * (8/100 + (5 - (g : ℚ)) * (2/100))))
          (13/10) 3)
        intervalDays :=
          if s.repetitions = 0 then 1
          else if s.repetitions = 1 then 6
          else max 1 (roundHalfEven ((s.intervalDays : ℚ) * s.easeFactor))
        repetitions := s.repetitions + 1
        lapses := s.lapses
        dueAt := now +
          (if s.repetitions = 0 then 1
           else if s.repetitions = 1 then 6
           else max 1 (roundHalfEven ((s.intervalDays : ℚ) * s.easeFactor))) * daySeconds
        lastReviewedAt := now } := by
  unfold apply_review
  rw [if_neg (by omega : ¬(g < 0 ∨ 5 < g)), if_neg (by omega : ¬ g < 3)]

/-- Witness for C7 at state (2, 10, 2, 0), grade 5, now = 7. -/
theorem C7_apply_review_success_witness :
    (3 : ℤ) ≤ 5 ∧ (5 : ℤ) ≤ 5 ∧
      apply_review ⟨2, 10, 2, 0⟩ 5 7 = .ok
        { easeFactor := round2 (clamp
            (2 + (1/10 - (5 - (5 : ℚ)) * (8/100 + (5 - (5 : ℚ)) * (2/100)))) (13/10) 3)
          intervalDays :=
            if (2 : ℤ) = 0 then 1
            else if (2 : ℤ) = 1 then 6
            else max 1 (roundHalfEven (((10 : ℤ) : ℚ) * 2))
          repetitions := 2 + 1
          lapses := 0
          dueAt := 7 +
            (if (2 : ℤ) = 0 then 1
             else if (2 : ℤ) = 1 then 6
             else max 1 (roundHalfEven (((10 : ℤ) : ℚ) * 2))) * daySeconds
          lastReviewedAt := 7 } :=
  ⟨by decide, by decide, C7_apply_review_success ⟨2, 10, 2, 0⟩ 5 7 (by decide) (by decide)⟩

/-! ## Claim C9 -/

/-- C9: `apply_readd_penalty` returns easeFactor =
round2(clamp(ease - 0.2, 1.3, 3.0)), repetitions = 0, intervalDays = 0 and
dueAt = now — and nothing else: the `ReaddPenalty` record carries no
`lapses` entry, so the re-add `update_one` leaves the card's lapses
untouched. -/
theorem C9_readd_penalty_frame (ex : Vocab) (p : VocabCreate) (now : Ts) :
    apply_readd_penalty (sm2FromDoc ex) now =
      { easeFactor := round2 (clamp (ex.easeFactor - 2/10) (13/10) 3)
        repetitions := 0
        intervalDays := 0
        dueAt := now } ∧
    (applyReaddDb ex p now).lapses = ex.lapses ∧
    (applyReaddDb ex p now).easeFactor = round2 (clamp (ex.easeFactor - 2/10) (13/10) 3) ∧
    (applyReaddDb ex p now).repetitions = 0 ∧
    (applyReaddDb ex p now).intervalDays = 0 ∧
    (applyReaddDb ex p now).dueAt = some now :=
  ⟨rfl, rfl, rfl, rfl, rfl, rfl⟩

/-! ## Claim C1 -/

/-- C1: for a matched local/incoming pair, the merged card's scheduling
fields are the conservative combination: repetitions, intervalDays,
easeFactor and dueAt take the minimum, lapses, readdCount, lastReviewedAt
and lastReaddAt the maximum, with an absent timestamp treated as the other
side's value. -/
theorem C1_merge_scheduling_conservative (ex : Vocab) (inc : IncomingDoc) (now : Ts) :
    let m := (mergeVocabDoc ex inc now).1
    m.repetitions = min ex.repetitions inc.repetitions ∧
    m.intervalDays = min ex.intervalDays inc.intervalDays ∧
    m.easeFactor = min ex.easeFactor inc.easeFactor ∧
    m.dueAt = some (match ex.dueAt with
      | none => inc.dueAt
      | some d => min d inc.dueAt) ∧
    m.lapses = max ex.lapses inc.lapses ∧
    m.readdCount = max ex.readdCount inc.readdCount ∧
    m.lastReviewedAt = (match ex.lastReviewedAt, inc.lastReviewedAt with
      | none, r => r
      | some l, none => some l
      | some l, some r => some (max l r)) ∧
    m.lastReaddAt = (match ex.lastReaddAt, inc.lastReaddAt with
      | none, r => r
      | some l, none => some l
      | some l, some r => some (max l r)) := by
  refine ⟨rfl, rfl, rfl, ?_, rfl, rfl, ?_, ?_⟩
  · show some (safeMinDatetime ex.dueAt (some inc.dueAt) now) = _
    cases ex.dueAt <;> rfl
  · show safeMaxDatetime ex.lastReviewedAt inc.lastReviewedAt = _
    cases ex.lastReviewedAt <;> cases inc.lastReviewedAt <;> rfl
  · show safeMaxDatetime ex.lastReaddAt inc.lastReaddAt = _
    cases ex.lastReaddAt <;> cases inc.lastReaddAt <;> rfl

/-! ## Claim C3 -/

/-- C3: an import whose payload's schemaVersion differs from "v1" fails
with the unsupported-version error; `import_payload` never runs, so no
collection is written. -/
theorem C3_import_rejects_bad_version (p : Payload) (s : Store) (now : Ts)
    (h : p.schemaVersion ≠ "v1") :
    import_sync p s now = .error "Unsupported schemaVersion" := by
  unfold import_sync
  rw [if_pos h]

/-- Witness for C3 with schemaVersion "v2" against an empty store. -/
theorem C3_import_rejects_bad_version_witness :
    ("v2" : String) ≠ "v1" ∧
      import_sync ⟨"v2", [], [], []⟩ ⟨[], [], [], 0⟩ 0 =
        .error "Unsupported schemaVersion" :=
  ⟨by decide, C3_import_rejects_bad_version ⟨"v2", [], [], []⟩ ⟨[], [], [], 0⟩ 0 (by decide)⟩

/-! ## Claim C10: normalization is idempotent -/

theorem char_ofNat_toNat_small (n : ℕ) (h : n < 55296) : (Char.ofNat n).toNat = n := by
  unfold Char.ofNat
  rw [dif_pos (Or.inl h : n.isValidChar)]
  rfl

theorem char_toLower_of_not_upper (c : Char)
    (h : ¬(c.toNat ≥ 65 ∧ c.toNat ≤ 90)) : c.toLower = c := by
  unfold Char.toLower
  exact if_neg h

theorem char_toLower_toLower (c : Char) : c.toLower.toLower = c.toLower := by
  by_cases h : c.toNat ≥ 65 ∧ c.toNat ≤ 90
  · have h1 : c.toLower = Char.ofNat (c.toNat + 32) := by
      unfold Char.toLower
      exact if_pos h
    have h2 : (Char.ofNat (c.toNat + 32)).toNat = c.toNat + 32 :=
      char_ofNat_toNat_small _ (by omega)
    rw [h1]
    apply char_toLower_of_not_upper
    rw [h2]
    omega
  · rw [char_toLower_of_not_upper c h, char_toLower_of_not_upper c h]

theorem char_toLower_blank : Char.toLower ' ' = ' ' := by decide

theorem not_space_of_word (c : Char) (h : isWordChar c = true) :
    isSpaceChar c = false := by
  simp only [isWordChar, decide_eq_true_eq] at h
  simp only [isSpaceChar, decide_eq_false_iff_not]
  omega

theorem mem_collapseWsAux : ∀ (b : Bool) (l : List Char) (c : Char),
    c ∈ collapseWsAux b l → c ∈ l ∨ c = ' '
  | _, [], c, h => by simp [collapseWsAux] at h
  | b, x :: xs, c, h => by
    simp only [collapseWsAux] at h
    split at h
    · split at h
      · rcases mem_collapseWsAux true xs c h with h' | h'
        · exact Or.inl (List.mem_cons_of_mem _ h')
        · exact Or.inr h'
      · rcases List.mem_cons.mp h with h' | h'
        · exact Or.inr h'
        · rcases mem_collapseWsAux true xs c h' with h'' | h''
          · exact Or.inl (List.mem_cons_of_mem _ h'')
          · exact Or.inr h''
    · rcases List.mem_cons.mp h with h' | h'
      · exact Or.inl (h' ▸ List.mem_cons_self _ _)
      · rcases mem_collapseWsAux false xs c h' with h'' | h''
        · exact Or.inl (List.mem_cons_of_mem _ h'')
        · exact Or.inr h''

theorem collapseWsAux_spaces_blank : ∀ (b : Bool) (l : List Char) (c : Char),
    c ∈ collapseWsAux b l → isSpaceChar c = true → c = ' '
  | _, [], c, h, _ => by simp [collapseWsAux] at h
  | b, x :: xs, c, h, hs => by
    simp only [collapseWsAux] at h
    split at h
    · split at h
      · exact collapseWsAux_spaces_blank true xs c h hs
      · rcases List.mem_cons.mp h with h' | h'
        · exact h'
        · exact collapseWsAux_spaces_blank true xs c h' hs
    · rcases List.mem_cons.mp h with h' | h'
      · rename_i hx
        subst h'
        exact absurd hs hx
      · exact collapseWsAux_spaces_blank false xs c h' hs

theorem collapseWsAux_true_head : ∀ (l : List Char) (c : Char),
    (collapseWsAux true l).head? = some c → isSpaceChar c = false
  | [], c, h => by simp [collapseWsAux] at h
  | x :: xs, c, h => by
    simp only [collapseWsAux] at h
    split at h
    · exact collapseWsAux_true_head xs c h
    · rename_i hx
      rw [List.head?_cons, Option.some.injEq] at h
      subst h
      simpa using hx

theorem collapseWsAux_chain : ∀ (b : Bool) (l : List Char),
    (collapseWsAux b l).Chain'
      (fun a c => ¬(isSpaceChar a = true ∧ isSpaceChar c = true))
  | _, [] => by simp [collapseWsAux]
  | b, x :: xs => by
    simp only [collapseWsAux]
    split
    · split
      · exact collapseWsAux_chain true xs
      · rw [List.chain'_cons']
        refine ⟨?_, collapseWsAux_chain true xs⟩
        intro y hy
        rw [Option.mem_def] at hy
        have := collapseWsAux_true_head xs y hy
        intro hcon
        rw [this] at hcon
        exact absurd hcon.2 (by simp)
    · rename_i hx
      rw [List.chain'_cons']
      refine ⟨?_, collapseWsAux_chain false xs⟩
      intro y _ hcon
      exact hx hcon.1

theorem collapseWsAux_eq_self : ∀ (l : List Char),
    (∀ c ∈ l, isSpaceChar c = true → c = ' ') →
    l.Chain' (fun a c => ¬(isSpaceChar a = true ∧ isSpaceChar c = true)) →
    ∀ b : Bool, (b = true → ∀ c, l.head? = some c → isSpaceChar c = false) →
    collapseWsAux b l = l
  | [], _, _, b, _ => by cases b <;> rfl
  | x :: xs, hblank, hchain, b, hhead => by
    have htail : ∀ c ∈ xs, isSpaceChar c = true → c = ' ' :=
      fun c hc => hblank c (List.mem_cons_of_mem _ hc)
    have hchaintail : xs.Chain'
        (fun a c => ¬(isSpaceChar a = true ∧ isSpaceChar c = true)) :=
      (List.chain'_cons'.mp hchain).2
    cases hbx : isSpaceChar x with
    | false =>
      simp only [collapseWsAux, hbx]
      rw [if_neg (by simp)]
      rw [collapseWsAux_eq_self xs htail hchaintail false (by intro h; exact absurd h (by simp))]
    | true =>
      have hx : x = ' ' := hblank x (List.mem_cons_self _ _) hbx
      cases b with
      | true => exact absurd (hhead rfl x List.head?_cons) (by simp [hbx])
      | false =>
        have hrest : collapseWsAux true xs = xs := by
          apply collapseWsAux_eq_self xs htail hchaintail true
          intro _ c hc
          have := (List.chain'_cons'.mp hchain).1 c (Option.mem_def.mpr hc)
          by_contra hcc
          exact this ⟨hbx, by simpa using hcc⟩
        simp only [collapseWsAux, hbx, if_true, hrest, hx]
        rfl

theorem dropWhile_head_not (p : Char → Bool) : ∀ (l : List Char) (c : Char),
    (l.dropWhile p).head? = some c → p c = false
  | [], c, h => by simp at h
  | x :: xs, c, h => by
    rw [List.dropWhile_cons] at h
    split at h
    · exact dropWhile_head_not p xs c h
    · rename_i hx
      rw [List.head?_cons, Option.some.injEq] at h
      subst h
      simpa using hx

theorem trimEndsBy_sublist (p : Char → Bool) (l : List Char) :
    (trimEndsBy p l).Sublist l := by
  unfold trimEndsBy
  have h2 : (((l.dropWhile p).reverse.dropWhile p).reverse).Sublist
      ((l.dropWhile p).reverse.reverse) :=
    (List.dropWhile_sublist p).reverse
  rw [List.reverse_reverse] at h2
  exact h2.trans (List.dropWhile_sublist p)

theorem trimEndsBy_chain {R : Char → Char → Prop}
    (hsymm : ∀ a b, R a b → R b a) (p : Char → Bool) (l : List Char)
    (h : l.Chain' R) : (trimEndsBy p l).Chain' R := by
  have hdrop : ∀ (m : List Char), m.Chain' R → (m.dropWhile p).Chain' R := by
    intro m hm
    obtain ⟨t, ht⟩ := List.dropWhile_suffix (l := m) p
    rw [← ht] at hm
    exact (List.chain'_append.mp hm).2.1
  have hrev : ∀ (m : List Char), m.Chain' R → m.reverse.Chain' R := by
    intro m hm
    rw [List.chain'_reverse]
    exact hm.imp (fun a b hab => hsymm a b hab)
  exact hrev _ (hdrop _ (hrev _ (hdrop _ h)))

theorem trimEndsBy_head (p : Char → Bool) (l : List Char) (c : Char)
    (h : (trimEndsBy p l).head? = some c) : p c = false := by
  unfold trimEndsBy at h
  rw [List.head?_reverse] at h
  have hne : (l.dropWhile p).reverse.dropWhile p ≠ [] := by
    intro he
    rw [he] at h
    simp at h
  obtain ⟨t, ht⟩ := List.dropWhile_suffix (l := (l.dropWhile p).reverse) p
  have hlast : ((l.dropWhile p).reverse).getLast? =
      ((l.dropWhile p).reverse.dropWhile p).getLast? := by
    have happ := List.getLast?_append_of_ne_nil t hne
    rw [ht] at happ
    exact happ
  rw [List.getLast?_reverse] at hlast
  exact dropWhile_head_not p l c (hlast.trans h)

theorem trimEndsBy_getLast (p : Char → Bool) (l : List Char) (c : Char)
    (h : (trimEndsBy p l).getLast? = some c) : p c = false := by
  unfold trimEndsBy at h
  rw [List.getLast?_reverse] at h
  exact dropWhile_head_not p _ c h

theorem dropWhile_eq_self_of_head (p : Char → Bool) (l : List Char)
    (h : ∀ c, l.head? = some c → p c = false) : l.dropWhile p = l := by
  cases l with
  | nil => rfl
  | cons x xs =>
    rw [List.dropWhile_cons, if_neg]
    simp [h x List.head?_cons]

theorem trimEndsBy_eq_self (p : Char → Bool) (l : List Char)
    (hh : ∀ c, l.head? = some c → p c = false)
    (hl : ∀ c, l.getLast? = some c → p c = false) : trimEndsBy p l = l := by
  unfold trimEndsBy
  rw [dropWhile_eq_self_of_head p l hh]
  rw [dropWhile_eq_self_of_head p l.reverse
    (by intro c hc; rw [List.head?_reverse] at hc; exact hl c hc)]
  exact List.reverse_reverse l

/-- Structural invariants of `normalizeTermL`'s output: all characters are
lowercase-fixed, all whitespace is a single interior blank, and both ends
are word characters. -/
theorem normalizeTermL_invariants (l : List Char) :
    (∀ c ∈ normalizeTermL l, c.toLower = c) ∧
    (∀ c ∈ normalizeTermL l, isSpaceChar c = true → c = ' ') ∧
    ((normalizeTermL l).Chain'
      (fun a c => ¬(isSpaceChar a = true ∧ isSpaceChar c = true))) ∧
    (∀ c, (normalizeTermL l).head? = some c → isWordChar c = true) ∧
    (∀ c, (normalizeTermL l).getLast? = some c → isWordChar c = true) := by
  have hsymm : ∀ a b : Char, ¬(isSpaceChar a = true ∧ isSpaceChar b = true) →
      ¬(isSpaceChar b = true ∧ isSpaceChar a = true) :=
    fun a b h hc => h ⟨hc.2, hc.1⟩
  set s0 := (trimEndsBy isSpaceChar l).map Char.toLower with hs0
  set s1 := collapseWs s0 with hs1
  set s2 := trimEndsBy (fun c => !isWordChar c) s1 with hs2
  have hblank1 : ∀ c ∈ s1, isSpaceChar c = true → c = ' ' :=
    fun c hc => collapseWsAux_spaces_blank false s0 c hc
  have hchain1 : s1.Chain' (fun a c => ¬(isSpaceChar a = true ∧ isSpaceChar c = true)) :=
    collapseWsAux_chain false s0
  have hsub2 : s2.Sublist s1 := trimEndsBy_sublist _ s1
  have hblank2 : ∀ c ∈ s2, isSpaceChar c = true → c = ' ' :=
    fun c hc => hblank1 c (hsub2.subset hc)
  have hchain2 : s2.Chain' (fun a c => ¬(isSpaceChar a = true ∧ isSpaceChar c = true)) :=
    trimEndsBy_chain hsymm _ s1 hchain1
  have hhead2 : ∀ c, s2.head? = some c → isWordChar c = true := by
    intro c hc
    have := trimEndsBy_head _ s1 c hc
    simpa using this
  have hlast2 : ∀ c, s2.getLast? = some c → isWordChar c = true := by
    intro c hc
    have := trimEndsBy_getLast _ s1 c hc
    simpa using this
  have heq : normalizeTermL l = s2 := by
    show trimEndsBy isSpaceChar (collapseWs s2) = s2
    rw [show collapseWs s2 = s2 from
      collapseWsAux_eq_self s2 hblank2 hchain2 false (by intro h; exact absurd h (by simp))]
    refine trimEndsBy_eq_self _ _ ?_ ?_
    · intro c hc
      exact not_space_of_word c (hhead2 c hc)
    · intro c hc
      exact not_space_of_word c (hlast2 c hc)
  have hfix2 : ∀ c ∈ s2, c.toLower = c := by
    intro c hc
    rcases mem_collapseWsAux false s0 c (hsub2.subset hc) with h' | h'
    · rw [hs0] at h'
      obtain ⟨a, _, ha⟩ := List.mem_map.mp h'
      rw [← ha]
      exact char_toLower_toLower a
    · rw [h']
      exact char_toLower_blank
  rw [heq]
  exact ⟨hfix2, hblank2, hchain2, hhead2, hlast2⟩

theorem map_toLower_eq_self (l : List Char) (h : ∀ c ∈ l, c.toLower = c) :
    l.map Char.toLower = l := by
  induction l with
  | nil => rfl
  | cons x xs ih =>
    rw [List.map_cons, h x (List.mem_cons_self _ _),
      ih (fun c hc => h c (List.mem_cons_of_mem _ hc))]

/-- C10: `normalize_term` is idempotent; re-normalizing the
`termNormalized` key carried in an exported snapshot therefore yields the
same key. -/
theorem C10_normalize_term_idempotent (s : String) :
    normalize_term (normalize_term s) = normalize_term s := by
  unfold normalize_term
  refine congrArg String.mk ?_
  show normalizeTermL (normalizeTermL s.data) = normalizeTermL s.data
  obtain ⟨hfix, hblank, hchain, hhead, hlast⟩ := normalizeTermL_invariants s.data
  set r := normalizeTermL s.data with hr
  have hheadspace : ∀ c, r.head? = some c → isSpaceChar c = false :=
    fun c hc => not_space_of_word c (hhead c hc)
  have hlastspace : ∀ c, r.getLast? = some c → isSpaceChar c = false :=
    fun c hc => not_space_of_word c (hlast c hc)
  have hcoll : collapseWs r = r :=
    collapseWsAux_eq_self r hblank hchain false (by intro h; exact absurd h (by simp))
  show trimEndsBy isSpaceChar (collapseWs (trimEndsBy (fun c => !isWordChar c)
    (collapseWs ((trimEndsBy isSpaceChar r).map Char.toLower)))) = r
  rw [trimEndsBy_eq_self isSpaceChar r hheadspace hlastspace]
  rw [map_toLower_eq_self r hfix]
  rw [hcoll]
  rw [trimEndsBy_eq_self _ r (by intro c hc; simp [hhead c hc])
    (by intro c hc; simp [hlast c hc])]
  rw [hcoll]
  exact trimEndsBy_eq_self isSpaceChar r hheadspace hlastspace

/-! ## Claim C8: session review list -/

theorem dedupByIdFrom_append (xs ys : List Vocab) (seen : List ℕ) :
    dedupByIdFrom seen (xs ++ ys) =
      dedupByIdFrom seen xs ++
        dedupByIdFrom (seen ++ (dedupByIdFrom seen xs).map (fun v => v.id)) ys := by
  induction xs generalizing seen with
  | nil => simp [dedupByIdFrom]
  | cons v vs ih =>
    simp only [List.cons_append, dedupByIdFrom, List.append_eq]
    by_cases hc : seen.contains v.id
    · rw [if_pos hc, if_pos hc]
      exact ih seen
    · rw [if_neg hc, if_neg hc]
      rw [List.cons_append, ih (seen ++ [v.id])]
      simp [List.append_assoc]

theorem dedupByIdFrom_nodup (l : List Vocab) (seen : List ℕ) :
    ((dedupByIdFrom seen l).map (fun v => v.id)).Nodup ∧
      ∀ i ∈ (dedupByIdFrom seen l).map (fun v => v.id), i ∉ seen := by
  induction l generalizing seen with
  | nil => simp [dedupByIdFrom]
  | cons v vs ih =>
    simp only [dedupByIdFrom]
    by_cases hc : seen.contains v.id
    · rw [if_pos hc]
      exact ih seen
    · rw [if_neg hc]
      obtain ⟨hnd, hdis⟩ := ih (seen ++ [v.id])
      have hvnotin : v.id ∉ seen := by
        intro hmem
        exact hc (List.elem_eq_true_of_mem hmem)
      refine ⟨?_, ?_⟩
      · rw [List.map_cons, List.nodup_cons]
        refine ⟨?_, hnd⟩
        intro hmem
        have := hdis _ hmem
        simp at this
      · intro i hi
        rw [List.map_cons, List.mem_cons] at hi
        rcases hi with hi | hi
        · rw [hi]
          exact hvnotin
        · intro hmem
          exact hdis i hi (by simp [hmem])

theorem addBucket_eq (limit : ℕ) : ∀ (l : List Vocab) (acc : List Vocab),
    acc.length < limit →
    addBucket limit acc l =
      (acc ++ dedupByIdFrom (acc.map (fun v => v.id)) l).take limit
  | [], acc, h => by
    simp only [addBucket, dedupByIdFrom, List.append_nil]
    exact (List.take_of_length_le (Nat.le_of_lt h)).symm
  | d :: ds, acc, h => by
    simp only [addBucket, dedupByIdFrom]
    by_cases hc : (acc.map (fun v => v.id)).contains d.id
    · rw [if_pos hc, if_pos hc]
      exact addBucket_eq limit ds acc h
    · rw [if_neg hc, if_neg hc]
      by_cases hfull : limit ≤ (acc ++ [d]).length
      · rw [if_pos hfull]
        have hlen : (acc ++ [d]).length = limit := by
          simp only [List.length_append, List.length_singleton] at hfull ⊢
          omega
        have hassoc : acc ++ d :: dedupByIdFrom (acc.map (fun v => v.id) ++ [d.id]) ds =
            (acc ++ [d]) ++ dedupByIdFrom (acc.map (fun v => v.id) ++ [d.id]) ds := by
          simp
        rw [hassoc, List.take_append_eq_append_take, hlen, Nat.sub_self,
          List.take_zero, List.append_nil]
        exact (List.take_of_length_le (Nat.le_of_eq hlen)).symm
      · rw [if_neg hfull]
        push_neg at hfull
        rw [addBucket_eq limit ds (acc ++ [d]) hfull]
        congr 1
        simp [List.append_assoc]

theorem composeReview_eq (limit : ℕ) (hl : 0 < limit) (due yest strug : List Vocab) :
    composeReview limit due yest strug =
      (dedupByIdFrom [] (due ++ yest ++ strug)).take limit := by
  unfold composeReview
  rw [addBucket_eq limit due [] (by simpa using hl)]
  simp only [List.nil_append, List.map_nil]
  set D1 := dedupByIdFrom [] due with hD1
  have hsplit1 : dedupByIdFrom [] (due ++ (yest ++ strug)) =
      D1 ++ dedupByIdFrom (D1.map (fun v => v.id)) (yest ++ strug) := by
    rw [dedupByIdFrom_append]
    simp
  by_cases h1 : limit ≤ (D1.take limit).length
  · rw [if_pos h1]
    have hlim : limit ≤ D1.length := by
      rw [List.length_take] at h1
      omega
    rw [List.append_assoc, hsplit1, List.take_append_eq_append_take,
      Nat.sub_eq_zero_of_le hlim, List.take_zero, List.append_nil]
  · rw [if_neg h1]
    push_neg at h1
    have hD1full : D1.take limit = D1 := by
      rw [List.length_take] at h1
      exact List.take_of_length_le (by omega)
    rw [hD1full] at h1 ⊢
    rw [addBucket_eq limit yest D1 h1]
    set D2 := dedupByIdFrom [] (due ++ yest) with hD2
    have hsplit2 : D2 = D1 ++ dedupByIdFrom (D1.map (fun v => v.id)) yest := by
      rw [hD2, dedupByIdFrom_append]
      simp
    have hsplit3 : dedupByIdFrom [] ((due ++ yest) ++ strug) =
        D2 ++ dedupByIdFrom (D2.map (fun v => v.id)) strug := by
      rw [dedupByIdFrom_append]
      simp
    by_cases h2 : limit ≤ ((D1 ++ dedupByIdFrom (D1.map (fun v => v.id)) yest).take limit).length
    · rw [if_pos h2]
      rw [← hsplit2] at h2 ⊢
      have hlim2 : limit ≤ D2.length := by
        rw [List.length_take] at h2
        omega
      rw [List.append_assoc, ← List.append_assoc, hsplit3,
        List.take_append_eq_append_take, Nat.sub_eq_zero_of_le hlim2,
        List.take_zero, List.append_nil]
    · rw [if_neg h2]
      rw [← hsplit2] at h2 ⊢
      push_neg at h2
      have hD2full : D2.take limit = D2 := by
        rw [List.length_take] at h2
        exact List.take_of_length_le (by omega)
      rw [hD2full] at h2 ⊢
      rw [addBucket_eq limit strug D2 h2, ← hsplit3, List.append_assoc]

/-- C8: for every store state and every positive limit (the route enforces
1 <= limit <= 200), the review list has at most `limit` entries, contains
no card id twice, and equals the concatenation of the due, yesterday and
struggle buckets deduplicated by first occurrence and truncated to
`limit`. -/
theorem C8_session_review_bounded_nodup (s : Store)
    (now tStart tEnd yStart yEnd : Ts) (limit : ℕ) (hl : 0 < limit) :
    let todayIds := (todayNewBucket s.vocabs tStart tEnd).map (fun v => v.id)
    let due := dueBucket s.vocabs now todayIds limit
    let yest := yesterdayBucket s.vocabs s.reviewLogs yStart yEnd todayIds limit
    let strug := struggleBucket s.vocabs todayIds limit
    let review := (get_today_session s now tStart tEnd yStart yEnd limit).2
    review.length ≤ limit ∧
    (review.map (fun v => v.id)).Nodup ∧
    review = (dedupByIdFrom [] (due ++ yest ++ strug)).take limit := by
  intro todayIds due yest strug review
  have hrev : review = (dedupByIdFrom [] (due ++ yest ++ strug)).take limit :=
    composeReview_eq limit hl due yest strug
  refine ⟨?_, ?_, hrev⟩
  · rw [hrev, List.length_take]
    omega
  · rw [hrev, List.map_take]
    exact List.Nodup.sublist (List.take_sublist _ _)
      (dedupByIdFrom_nodup (due ++ yest ++ strug) []).1

/-- Witness for C8: an empty store with limit 1. -/
theorem C8_session_review_bounded_nodup_witness :
    0 < 1 ∧
      (let s : Store := ⟨[], [], [], 0⟩
       let todayIds := (todayNewBucket s.vocabs 0 1).map (fun v => v.id)
       let due := dueBucket s.vocabs 0 todayIds 1
       let yest := yesterdayBucket s.vocabs s.reviewLogs 0 1 todayIds 1
       let strug := struggleBucket s.vocabs todayIds 1
       let review := (get_today_session s 0 0 1 0 1 1).2
       review.length ≤ 1 ∧
       (review.map (fun v => v.id)).Nodup ∧
       review = (dedupByIdFrom [] (due ++ yest ++ strug)).take 1) :=
  ⟨by decide, C8_session_review_bounded_nodup ⟨[], [], [], 0⟩ 0 0 1 0 1 1 (by decide)⟩

/-! ## Claim C4: log deduplication -/

theorem stepVocab_reviewLogs (now : Ts) (acc : VocabAcc) (r : RawVocab) :
    (stepVocab now acc r).store.reviewLogs = acc.store.reviewLogs := by
  unfold stepVocab
  dsimp only
  split
  · rfl
  · split
    · rfl
    · split <;> rfl

theorem foldVocab_reviewLogs (now : Ts) : ∀ (rs : List RawVocab) (acc : VocabAcc),
    (rs.foldl (stepVocab now) acc).store.reviewLogs = acc.store.reviewLogs
  | [], _ => rfl
  | r :: rs, acc => by
    rw [List.foldl_cons, foldVocab_reviewLogs now rs, stepVocab_reviewLogs]

theorem vocabPhase_reviewLogs (s : Store) (p : Payload) (now : Ts) :
    (vocabPhase s p now).store.reviewLogs = s.reviewLogs :=
  foldVocab_reviewLogs now _ _

/-- Invariant of the log-reconciliation loop: the seen-fingerprint set is
the pre-existing fingerprints plus those of the accepted logs, the
accepted fingerprints are pairwise distinct, and none of them was
pre-existing. -/
theorem logLoop_invariant (v : List Vocab) (m : IdMapping) (now : Ts)
    (H0 : List LogFp) : ∀ (rs : List RawLog) (acc : LogAcc),
    acc.hashes = H0 ++ acc.toInsert.map logFp →
    (acc.toInsert.map logFp).Nodup →
    (∀ f ∈ acc.toInsert.map logFp, f ∉ H0) →
    (rs.foldl (stepLog v m now) acc).hashes =
      H0 ++ ((rs.foldl (stepLog v m now) acc).toInsert.map logFp) ∧
    (((rs.foldl (stepLog v m now) acc).toInsert.map logFp)).Nodup ∧
    (∀ f ∈ (rs.foldl (stepLog v m now) acc).toInsert.map logFp, f ∉ H0)
  | [], acc, hh, hnd, hdis => ⟨hh, hnd, hdis⟩
  | r :: rs, acc, hh, hnd, hdis => by
    rw [List.foldl_cons]
    rcases hres : resolveLogVocab v m r.vocabId with _ | lid
    · have hstep : stepLog v m now acc r = acc := by
        unfold stepLog
        rw [hres]
      rw [hstep]
      exact logLoop_invariant v m now H0 rs acc hh hnd hdis
    · by_cases hmem : logFp (normalizeLog lid r now) ∈ acc.hashes
      · have hstep : stepLog v m now acc r = acc := by
          unfold stepLog
          simp only [hres]
          rw [if_pos hmem]
        rw [hstep]
        exact logLoop_invariant v m now H0 rs acc hh hnd hdis
      · have hstep : stepLog v m now acc r =
            { hashes := acc.hashes ++ [logFp (normalizeLog lid r now)]
              toInsert := acc.toInsert ++ [normalizeLog lid r now] } := by
          unfold stepLog
          simp only [hres]
          rw [if_neg hmem]
        rw [hstep]
        have hfp_not_H0 : logFp (normalizeLog lid r now) ∉ H0 := by
          intro hc
          exact hmem (hh ▸ List.mem_append_left _ hc)
        have hfp_not_ins :
            logFp (normalizeLog lid r now) ∉ acc.toInsert.map logFp := by
          intro hc
          exact hmem (hh ▸ List.mem_append_right _ hc)
        refine logLoop_invariant v m now H0 rs _ ?_ ?_ ?_
        · show acc.hashes ++ [logFp (normalizeLog lid r now)] =
            H0 ++ (acc.toInsert ++ [normalizeLog lid r now]).map logFp
          rw [hh, List.map_append, List.append_assoc]
          rfl
        · show ((acc.toInsert ++ [normalizeLog lid r now]).map logFp).Nodup
          rw [List.map_append, List.nodup_append]
          refine ⟨hnd, by simp, ?_⟩
          intro a ha hb
          rw [List.map_cons, List.map_nil, List.mem_singleton] at hb
          subst hb
          exact hfp_not_ins ha
        · intro f hf
          rw [List.map_append, List.mem_append] at hf
          rcases hf with hf | hf
          · exact hdis f hf
          · rw [List.map_cons, List.map_nil, List.mem_singleton] at hf
            subst hf
            exact hfp_not_H0

/-- C4: an incoming review log whose fingerprint over
{cardId, createdAt, grade, mode, questionType} equals that of a
pre-existing local log, or of a log already accepted in the same run, is
skipped — so a log that is present exactly once locally and also appears
in the imported set is stored exactly once after the merge. -/
theorem C4_log_fingerprint_unique (s : Store) (p : Payload) (now : Ts)
    (f : LogFp) (h1 : countFp s.reviewLogs f = 1) :
    countFp (import_payload s p now).1.reviewLogs f = 1 := by
  have hpre : (vocabPhase s p now).store.reviewLogs = s.reviewLogs :=
    vocabPhase_reviewLogs s p now
  have hlogs : (import_payload s p now).1.reviewLogs =
      (vocabPhase s p now).store.reviewLogs ++
        (logPhase (vocabPhase s p now).store (vocabPhase s p now).mapping p now).toInsert :=
    rfl
  obtain ⟨hh, hnd, hdis⟩ := logLoop_invariant
    (vocabPhase s p now).store.vocabs (vocabPhase s p now).mapping now
    ((vocabPhase s p now).store.reviewLogs.map logFp)
    (sortBy rawLogLe p.review_logs)
    { hashes := (vocabPhase s p now).store.reviewLogs.map logFp, toInsert := [] }
    (by simp) (by simp) (by simp)
  have hfmem : f ∈ s.reviewLogs.map logFp := by
    rcases hfil : s.reviewLogs.filter (fun l => logFp l = f) with _ | ⟨a, t⟩
    · rw [countFp, hfil] at h1
      simp at h1
    · have ha : a ∈ s.reviewLogs.filter (fun l => logFp l = f) := by
        rw [hfil]
        exact List.mem_cons_self _ _
      rw [List.mem_filter] at ha
      have : logFp a = f := by simpa using ha.2
      exact this ▸ List.mem_map_of_mem logFp ha.1
  have hzero : countFp
      (logPhase (vocabPhase s p now).store (vocabPhase s p now).mapping p now).toInsert f = 0 := by
    rw [countFp, List.length_eq_zero]
    rw [List.filter_eq_nil_iff]
    intro l hl
    simp only [decide_eq_true_eq]
    intro he
    exact hdis f (he ▸ List.mem_map_of_mem logFp hl) (hpre ▸ hfmem)
  rw [hlogs, countFp, List.filter_append, List.length_append, hpre]
  rw [countFp] at hzero h1
  rw [hzero, h1]

/-- Witness for C4: a store holding exactly one log with the given
fingerprint, merged with an empty payload. -/
theorem C4_log_fingerprint_unique_witness :
    countFp [{ vocabId := 0, mode := "flip", questionType := "term_to_meaning",
               grade := 3, userAnswer := none, isNearCorrect := none,
               createdAt := 5 : DbLog }]
        ⟨0, 5, 3, "flip", "term_to_meaning"⟩ = 1 ∧
      countFp (import_payload
          ⟨[], [{ vocabId := 0, mode := "flip", questionType := "term_to_meaning",
                  grade := 3, userAnswer := none, isNearCorrect := none,
                  createdAt := 5 }], [], 0⟩
          ⟨"v1", [], [], []⟩ 9).1.reviewLogs
        ⟨0, 5, 3, "flip", "term_to_meaning"⟩ = 1 :=
  ⟨by decide, C4_log_fingerprint_unique
    ⟨[], [{ vocabId := 0, mode := "flip", questionType := "term_to_meaning",
            grade := 3, userAnswer := none, isNearCorrect := none, createdAt := 5 }], [], 0⟩
    ⟨"v1", [], [], []⟩ 9 ⟨0, 5, 3, "flip", "term_to_meaning"⟩ (by decide)⟩

/-! ## Claim C2: idempotence of import

Infrastructure: branch equations for `stepVocab`, preservation of store
well-formedness, and stability of term-normalized lookup across the card
loop. -/

theorem stepVocab_skip (now : Ts) (acc : VocabAcc) (r : RawVocab)
    (h : rawVocabKey r = "") : stepVocab now acc r = acc := by
  unfold stepVocab
  rw [if_pos h]

theorem stepVocab_insert (now : Ts) (acc : VocabAcc) (r : RawVocab)
    (h : ¬ rawVocabKey r = "")
    (hf : acc.store.vocabs.find? (fun v => v.termNormalized = rawVocabKey r) = none) :
    stepVocab now acc r =
      { acc with
        store := { acc.store with
                   vocabs := acc.store.vocabs ++
                     [vocabOfIncoming acc.store.nextId
                       (buildIncomingDoc r (rawVocabKey r) now)]
                   nextId := acc.store.nextId + 1 }
        mapping := setMapping acc.mapping r.sourceId acc.store.nextId
        addedVocabs := acc.addedVocabs + 1 } := by
  unfold stepVocab
  rw [if_neg h]
  simp only [hf]
  rfl

theorem stepVocab_found (now : Ts) (acc : VocabAcc) (r : RawVocab) (ex : Vocab)
    (h : ¬ rawVocabKey r = "")
    (hf : acc.store.vocabs.find? (fun v => v.termNormalized = rawVocabKey r) = some ex) :
    stepVocab now acc r =
      (if (mergeVocabDoc ex (buildIncomingDoc r (rawVocabKey r) now) now).1 = ex then
        { acc with
          mapping := setMapping acc.mapping r.sourceId ex.id
          conflicts := acc.conflicts +
            (mergeVocabDoc ex (buildIncomingDoc r (rawVocabKey r) now) now).2 }
       else
        { acc with
          store := { acc.store with
                     vocabs := acc.store.vocabs.map (fun v =>
                       if v.id = ex.id then
                         (mergeVocabDoc ex (buildIncomingDoc r (rawVocabKey r) now) now).1
                       else v) }
          mapping := setMapping acc.mapping r.sourceId ex.id
          conflicts := acc.conflicts +
            (mergeVocabDoc ex (buildIncomingDoc r (rawVocabKey r) now) now).2
          updatedVocabs := acc.updatedVocabs + 1 }) := by
  unfold stepVocab
  rw [if_neg h]
  simp only [hf]

theorem map_id_replace (l : List Vocab) (tid : ℕ) (mv : Vocab)
    (hid : mv.id = tid) :
    (l.map (fun v => if v.id = tid then mv else v)).map (fun v => v.id) =
      l.map (fun v => v.id) := by
  induction l with
  | nil => rfl
  | cons x xs ih =>
    simp only [List.map_cons, ih]
    by_cases hx : x.id = tid
    · rw [if_pos hx, hid, hx]
    · rw [if_neg hx]

theorem map_replace_of_ne (l : List Vocab) (tid : ℕ) (mv : Vocab)
    (h : ∀ w ∈ l, w.id ≠ tid) :
    l.map (fun v => if v.id = tid then mv else v) = l := by
  induction l with
  | nil => rfl
  | cons x xs ih =>
    rw [List.map_cons, if_neg (h x (List.mem_cons_self _ _)),
      ih (fun w hw => h w (List.mem_cons_of_mem _ hw))]

theorem find?_cons_pos (p : Vocab → Bool) (v : Vocab) (l : List Vocab)
    (h : p v = true) : (v :: l).find? p = some v :=
  List.find?_cons_of_pos l h

theorem find?_cons_neg (p : Vocab → Bool) (v : Vocab) (l : List Vocab)
    (h : p v = false) : (v :: l).find? p = l.find? p :=
  List.find?_cons_of_neg l (by simp [h])

theorem findIdByTn_append_of_none (l : List Vocab) (v : Vocab) (tn : String)
    (h : l.find? (fun w => w.termNormalized = tn) = none)
    (hv : v.termNormalized = tn) :
    findIdByTn (l ++ [v]) tn = some v.id := by
  unfold findIdByTn
  rw [List.find?_append, h]
  rw [find?_cons_pos (fun w => decide (w.termNormalized = tn)) v []
    (decide_eq_true hv)]
  rfl

theorem findIdByTn_append_some (l : List Vocab) (v : Vocab) (tn : String)
    (i : ℕ) (h : findIdByTn l tn = some i) :
    findIdByTn (l ++ [v]) tn = some i := by
  unfold findIdByTn at h ⊢
  rcases hfind : l.find? (fun w => w.termNormalized = tn) with _ | w
  · rw [hfind] at h
    simp at h
  · rw [List.find?_append, hfind]
    rw [hfind] at h
    exact h

theorem findIdByTn_replace (l : List Vocab)
    (hnd : (l.map (fun v => v.id)).Nodup) (ex mv : Vocab) (hex : ex ∈ l)
    (hid : mv.id = ex.id) (htn : mv.termNormalized = ex.termNormalized)
    (tn : String) :
    findIdByTn (l.map (fun v => if v.id = ex.id then mv else v)) tn =
      findIdByTn l tn := by
  induction l with
  | nil => rfl
  | cons x xs ih =>
    rw [List.map_cons, List.nodup_cons] at hnd
    rcases List.mem_cons.mp hex with hx | hx
    · subst hx
      have hxs : xs.map (fun v => if v.id = ex.id then mv else v) = xs := by
        apply map_replace_of_ne
        intro w hw he
        exact hnd.1 (he ▸ List.mem_map_of_mem (fun v => v.id) hw)
      show findIdByTn ((if ex.id = ex.id then mv else ex) ::
        xs.map (fun v => if v.id = ex.id then mv else v)) tn = findIdByTn (ex :: xs) tn
      rw [if_pos rfl, hxs]
      unfold findIdByTn
      by_cases hmatch : ex.termNormalized = tn
      · rw [find?_cons_pos (fun v => decide (v.termNormalized = tn)) mv xs
            (decide_eq_true (htn.trans hmatch)),
          find?_cons_pos (fun v => decide (v.termNormalized = tn)) ex xs
            (decide_eq_true hmatch)]
        simp [hid]
      · rw [find?_cons_neg (fun v => decide (v.termNormalized = tn)) mv xs
            (decide_eq_false (by rw [htn]; exact hmatch)),
          find?_cons_neg (fun v => decide (v.termNormalized = tn)) ex xs
            (decide_eq_false hmatch)]
    · have hxne : ¬ x.id = ex.id := by
        intro he
        exact hnd.1 (he ▸ List.mem_map_of_mem (fun v => v.id) hx)
      simp only [List.map_cons, if_neg hxne]
      unfold findIdByTn
      by_cases hmatch : x.termNormalized = tn
      · rw [find?_cons_pos (fun v => decide (v.termNormalized = tn)) x
            (xs.map (fun v => if v.id = ex.id then mv else v)) (decide_eq_true hmatch),
          find?_cons_pos (fun v => decide (v.termNormalized = tn)) x xs
            (decide_eq_true hmatch)]
      · rw [find?_cons_neg (fun v => decide (v.termNormalized = tn)) x
            (xs.map (fun v => if v.id = ex.id then mv else v)) (decide_eq_false hmatch),
          find?_cons_neg (fun v => decide (v.termNormalized = tn)) x xs
            (decide_eq_false hmatch)]
        exact ih hnd.2 hx

theorem mergeVocabDoc_id (ex : Vocab) (d : IncomingDoc) (now : Ts) :
    (mergeVocabDoc ex d now).1.id = ex.id := rfl

theorem mergeVocabDoc_tn (ex : Vocab) (d : IncomingDoc) (now : Ts) :
    (mergeVocabDoc ex d now).1.termNormalized = ex.termNormalized := rfl

theorem stepVocab_WF (now : Ts) (acc : VocabAcc) (r : RawVocab)
    (hwf : StoreWF acc.store) : StoreWF (stepVocab now acc r).store := by
  by_cases hkey : rawVocabKey r = ""
  · rw [stepVocab_skip now acc r hkey]
    exact hwf
  · rcases hfind : acc.store.vocabs.find?
        (fun v => v.termNormalized = rawVocabKey r) with _ | ex
    · rw [stepVocab_insert now acc r hkey hfind]
      constructor
      · simp only [List.map_append, List.map_cons, List.map_nil]
        rw [List.nodup_append]
        refine ⟨hwf.1, by simp, ?_⟩
        intro a ha hb
        rw [List.mem_singleton] at hb
        obtain ⟨w, hw, hwa⟩ := List.mem_map.mp ha
        have := hwf.2 w hw
        show False
        rw [hb] at hwa
        have : w.id = acc.store.nextId := hwa
        omega
      · intro w hw
        rcases List.mem_append.mp hw with hw | hw
        · have := hwf.2 w hw
          simp only
          omega
        · rw [List.mem_singleton] at hw
          rw [hw]
          show acc.store.nextId < acc.store.nextId + 1
          omega
    · rw [stepVocab_found now acc r ex hkey hfind]
      split
      · exact hwf
      · constructor
        · rw [map_id_replace _ _ _ (mergeVocabDoc_id ex _ now)]
          exact hwf.1
        · intro w hw
          obtain ⟨w0, hw0, hww⟩ := List.mem_map.mp hw
          show w.id < acc.store.nextId
          rw [← hww]
          by_cases hcase : w0.id = ex.id
          · rw [if_pos hcase, mergeVocabDoc_id ex _ now]
            exact hwf.2 ex (List.mem_of_find?_eq_some hfind)
          · rw [if_neg hcase]
            exact hwf.2 w0 hw0

theorem stepVocab_stable (now : Ts) (acc : VocabAcc) (r : RawVocab)
    (tn : String) (i : ℕ) (hwf : StoreWF acc.store)
    (h : findIdByTn acc.store.vocabs tn = some i) :
    findIdByTn (stepVocab now acc r).store.vocabs tn = some i := by
  by_cases hkey : rawVocabKey r = ""
  · rw [stepVocab_skip now acc r hkey]
    exact h
  · rcases hfind : acc.store.vocabs.find?
        (fun v => v.termNormalized = rawVocabKey r) with _ | ex
    · rw [stepVocab_insert now acc r hkey hfind]
      exact findIdByTn_append_some _ _ _ _ h
    · rw [stepVocab_found now acc r ex hkey hfind]
      split
      · exact h
      · rw [findIdByTn_replace _ hwf.1 ex _ (List.mem_of_find?_eq_some hfind)
          (mergeVocabDoc_id ex _ now) (mergeVocabDoc_tn ex _ now)]
        exact h

theorem foldVocab_WF (now : Ts) : ∀ (rs : List RawVocab) (acc : VocabAcc),
    StoreWF acc.store → StoreWF ((rs.foldl (stepVocab now) acc)).store
  | [], _, hwf => hwf
  | r :: rs, acc, hwf => by
    rw [List.foldl_cons]
    exact foldVocab_WF now rs _ (stepVocab_WF now acc r hwf)

theorem foldVocab_stable (now : Ts) : ∀ (rs : List RawVocab) (acc : VocabAcc)
    (tn : String) (i : ℕ), StoreWF acc.store →
    findIdByTn acc.store.vocabs tn = some i →
    findIdByTn ((rs.foldl (stepVocab now) acc)).store.vocabs tn = some i
  | [], _, _, _, _, h => h
  | r :: rs, acc, tn, i, hwf, h => by
    rw [List.foldl_cons]
    exact foldVocab_stable now rs _ tn i (stepVocab_WF now acc r hwf)
      (stepVocab_stable now acc r tn i hwf h)

theorem stepVocab_found_facts (now : Ts) (acc : VocabAcc) (r : RawVocab)
    (ex : Vocab) (h : ¬ rawVocabKey r = "")
    (hf : acc.store.vocabs.find? (fun v => v.termNormalized = rawVocabKey r) = some ex) :
    (stepVocab now acc r).mapping = setMapping acc.mapping r.sourceId ex.id ∧
    (stepVocab now acc r).addedVocabs = acc.addedVocabs ∧
    (stepVocab now acc r).store.vocabs.map (fun v => v.id) =
      acc.store.vocabs.map (fun v => v.id) ∧
    (∀ tn, StoreWF acc.store →
      findIdByTn (stepVocab now acc r).store.vocabs tn =
        findIdByTn acc.store.vocabs tn) := by
  rw [stepVocab_found now acc r ex h hf]
  split
  · exact ⟨rfl, rfl, rfl, fun tn _ => rfl⟩
  · refine ⟨rfl, rfl, map_id_replace _ _ _ (mergeVocabDoc_id ex _ now), ?_⟩
    intro tn hwf
    exact findIdByTn_replace acc.store.vocabs hwf.1 ex
      (mergeVocabDoc ex (buildIncomingDoc r (rawVocabKey r) now) now).1
      (List.mem_of_find?_eq_some hf) (mergeVocabDoc_id ex _ now)
      (mergeVocabDoc_tn ex _ now) tn

/-- The two runs of the card loop over the same sorted record list stay in
lock step: provided the second run's store already answers every
`termNormalized` lookup the way the first run's final store does, the
second run builds the same source-to-local mapping, inserts nothing, and
only updates cards in place. -/
theorem vocabLoop_sim (now1 now2 : Ts) :
    ∀ (rs : List RawVocab) (acc1 acc2 : VocabAcc),
    StoreWF acc1.store → StoreWF acc2.store →
    acc2.mapping = acc1.mapping →
    acc2.addedVocabs = 0 →
    (∀ tn, findIdByTn acc2.store.vocabs tn =
      findIdByTn ((rs.foldl (stepVocab now1) acc1)).store.vocabs tn) →
    ((rs.foldl (stepVocab now2) acc2)).mapping =
      ((rs.foldl (stepVocab now1) acc1)).mapping ∧
    ((rs.foldl (stepVocab now2) acc2)).addedVocabs = 0 ∧
    ((rs.foldl (stepVocab now2) acc2)).store.vocabs.map (fun v => v.id) =
      acc2.store.vocabs.map (fun v => v.id)
  | [], _, _, _, _, hmap, hadd, _ => ⟨hmap, hadd, rfl⟩
  | r :: rs, acc1, acc2, hw1, hw2, hmap, hadd, hf => by
    rw [List.foldl_cons, List.foldl_cons]
    have hf' : ∀ tn, findIdByTn acc2.store.vocabs tn =
        findIdByTn ((rs.foldl (stepVocab now1) (stepVocab now1 acc1 r))).store.vocabs tn := by
      intro tn
      have := hf tn
      rw [List.foldl_cons] at this
      exact this
    by_cases hkey : rawVocabKey r = ""
    · rw [stepVocab_skip now1 acc1 r hkey, stepVocab_skip now2 acc2 r hkey]
      rw [stepVocab_skip now1 acc1 r hkey] at hf'
      exact vocabLoop_sim now1 now2 rs acc1 acc2 hw1 hw2 hmap hadd hf'
    · have hw1' : StoreWF (stepVocab now1 acc1 r).store := stepVocab_WF now1 acc1 r hw1
      have hw2' : StoreWF (stepVocab now2 acc2 r).store := stepVocab_WF now2 acc2 r hw2
      -- run-1 analysis: the step maps `r.sourceId` to some id `j`, and the
      -- store answers the key's lookup with `j` from now on.
      obtain ⟨j, hmap1, hj⟩ :
          ∃ j, (stepVocab now1 acc1 r).mapping =
              setMapping acc1.mapping r.sourceId j ∧
            findIdByTn (stepVocab now1 acc1 r).store.vocabs (rawVocabKey r) = some j := by
        rcases hfind1 : acc1.store.vocabs.find?
            (fun v => v.termNormalized = rawVocabKey r) with _ | ex1
        · refine ⟨acc1.store.nextId, ?_, ?_⟩
          · rw [stepVocab_insert now1 acc1 r hkey hfind1]
          · rw [stepVocab_insert now1 acc1 r hkey hfind1]
            exact findIdByTn_append_of_none _ _ _ hfind1 rfl
        · obtain ⟨hm1, _, _, hfid1⟩ := stepVocab_found_facts now1 acc1 r ex1 hkey hfind1
          refine ⟨ex1.id, hm1, ?_⟩
          rw [hfid1 _ hw1]
          unfold findIdByTn
          rw [hfind1]
          rfl
      have hjfold : findIdByTn
          ((rs.foldl (stepVocab now1) (stepVocab now1 acc1 r))).store.vocabs
          (rawVocabKey r) = some j :=
        foldVocab_stable now1 rs _ _ _ hw1' hj
      have hf2 : findIdByTn acc2.store.vocabs (rawVocabKey r) = some j :=
        (hf' _).trans hjfold
      obtain ⟨ex2, hfind2, hid2⟩ := Option.map_eq_some'.mp hf2
      obtain ⟨hm2, hadd2, hids2, hfid2⟩ := stepVocab_found_facts now2 acc2 r ex2 hkey hfind2
      have hfrec : ∀ tn, findIdByTn (stepVocab now2 acc2 r).store.vocabs tn =
          findIdByTn ((rs.foldl (stepVocab now1) (stepVocab now1 acc1 r))).store.vocabs tn := by
        intro tn
        rw [hfid2 tn hw2]
        exact hf' tn
      obtain ⟨cmap, cadd, cids⟩ := vocabLoop_sim now1 now2 rs
        (stepVocab now1 acc1 r) (stepVocab now2 acc2 r) hw1' hw2'
        (by rw [hm2, hmap1, hmap, hid2]) (by rw [hadd2, hadd]) hfrec
      exact ⟨cmap, cadd, cids.trans hids2⟩

theorem mem_insertSorted {α : Type} (le : α → α → Bool) (x a : α) :
    ∀ (l : List α), a ∈ insertSorted le x l ↔ a = x ∨ a ∈ l
  | [] => by simp [insertSorted]
  | y :: ys => by
    simp only [insertSorted]
    split
    · simp [List.mem_cons]
    · rw [List.mem_cons, mem_insertSorted le x a ys, List.mem_cons]
      tauto

theorem mem_sortBy {α : Type} (le : α → α → Bool) (a : α) :
    ∀ (l : List α), a ∈ sortBy le l ↔ a ∈ l
  | [] => Iff.rfl
  | x :: xs => by
    simp only [sortBy]
    rw [mem_insertSorted, mem_sortBy le a xs, List.mem_cons]

theorem stepLog_hashes_mono (v : List Vocab) (m : IdMapping) (now : Ts)
    (acc : LogAcc) (r : RawLog) (x : LogFp) (h : x ∈ acc.hashes) :
    x ∈ (stepLog v m now acc r).hashes := by
  unfold stepLog
  rcases hres : resolveLogVocab v m r.vocabId with _ | lid
  · exact h
  · show x ∈ (if logFp (normalizeLog lid r now) ∈ acc.hashes then acc
      else { hashes := acc.hashes ++ [logFp (normalizeLog lid r now)]
             toInsert := acc.toInsert ++ [normalizeLog lid r now] }).hashes
    split
    · exact h
    · exact List.mem_append_left _ h

theorem foldLog_hashes_mono (v : List Vocab) (m : IdMapping) (now : Ts) :
    ∀ (rs : List RawLog) (acc : LogAcc) (x : LogFp), x ∈ acc.hashes →
    x ∈ (rs.foldl (stepLog v m now) acc).hashes
  | [], _, _, h => h
  | r :: rs, acc, x, h => by
    rw [List.foldl_cons]
    exact foldLog_hashes_mono v m now rs _ x (stepLog_hashes_mono v m now acc r x h)

/-- Every log the loop can resolve ends up with its fingerprint in the
final seen-fingerprint set (inserted now, or already a duplicate). -/
theorem logLoop_covers (v : List Vocab) (m : IdMapping) (now : Ts) :
    ∀ (rs : List RawLog) (acc : LogAcc) (r : RawLog) (lid : ℕ),
    r ∈ rs → resolveLogVocab v m r.vocabId = some lid →
    logFp (normalizeLog lid r now) ∈ (rs.foldl (stepLog v m now) acc).hashes
  | [], _, _, _, hmem, _ => absurd hmem (List.not_mem_nil _)
  | r' :: rs, acc, r, lid, hmem, hres => by
    rw [List.foldl_cons]
    rcases List.mem_cons.mp hmem with he | hmem'
    · subst he
      have hfp : logFp (normalizeLog lid r now) ∈ (stepLog v m now acc r).hashes := by
        unfold stepLog
        rw [hres]
        show logFp (normalizeLog lid r now) ∈
          (if logFp (normalizeLog lid r now) ∈ acc.hashes then acc
           else { hashes := acc.hashes ++ [logFp (normalizeLog lid r now)]
                  toInsert := acc.toInsert ++ [normalizeLog lid r now] }).hashes
        split
        · rename_i hin
          exact hin
        · exact List.mem_append_right _ (List.mem_singleton_self _)
      exact foldLog_hashes_mono v m now rs _ _ hfp
    · exact logLoop_covers v m now rs _ r lid hmem' hres

theorem logLoop_skip_all (v : List Vocab) (m : IdMapping) (now : Ts) :
    ∀ (rs : List RawLog) (acc : LogAcc),
    (∀ r ∈ rs, ∀ lid, resolveLogVocab v m r.vocabId = some lid →
      logFp (normalizeLog lid r now) ∈ acc.hashes) →
    (rs.foldl (stepLog v m now) acc) = acc
  | [], _, _ => rfl
  | r :: rs, acc, h => by
    rw [List.foldl_cons]
    have hstep : stepLog v m now acc r = acc := by
      unfold stepLog
      rcases hres : resolveLogVocab v m r.vocabId with _ | lid
      · rfl
      · show (if logFp (normalizeLog lid r now) ∈ acc.hashes then acc
            else { hashes := acc.hashes ++ [logFp (normalizeLog lid r now)]
                   toInsert := acc.toInsert ++ [normalizeLog lid r now] }) = acc
        rw [if_pos (h r (List.mem_cons_self _ _) lid hres)]
    rw [hstep]
    exact logLoop_skip_all v m now rs acc
      (fun r' hr' => h r' (List.mem_cons_of_mem _ hr'))

theorem any_id_congr (v1 v2 : List Vocab) (n : ℕ)
    (hids : v2.map (fun v => v.id) = v1.map (fun v => v.id)) :
    v2.any (fun v => v.id = n) = v1.any (fun v => v.id = n) := by
  have hgen : ∀ (l : List Vocab), l.any (fun v => v.id = n) =
      (l.map (fun v => v.id)).any (fun i => i = n) := by
    intro l
    induction l with
    | nil => rfl
    | cons x xs ih => simp [List.any_cons, ih]
  rw [hgen, hgen, hids]

theorem resolveLogVocab_congr (v1 v2 : List Vocab) (m : IdMapping)
    (sid : SourceId)
    (hids : v2.map (fun v => v.id) = v1.map (fun v => v.id)) :
    resolveLogVocab v2 m sid = resolveLogVocab v1 m sid := by
  unfold resolveLogVocab
  cases lookupMapping m sid with
  | some n => rfl
  | none =>
    cases sid with
    | empty => rfl
    | other s => rfl
    | oid n =>
      show (if v2.any (fun v => v.id = n) = true then some n else none) =
        (if v1.any (fun v => v.id = n) = true then some n else none)
      rw [any_id_congr v1 v2 n hids]

theorem normalizeLog_time (lid : ℕ) (r : RawLog) (n1 n2 : Ts) (t : Ts)
    (h : r.createdAt = RawTime.good t) :
    normalizeLog lid r n2 = normalizeLog lid r n1 := by
  unfold normalizeLog
  rw [h]
  rfl

/-- C2 (amended): the second import of the same payload adds no cards, and
adds no logs provided every incoming review log carries a parseable
`createdAt` (`_parse_datetime` would otherwise substitute the per-run
current time into the dedup fingerprint). The store satisfies the id
well-formedness every application-built store has. -/
theorem C2_import_idempotent_good_timestamps (s : Store) (p : Payload)
    (n1 n2 : Ts) (hwf : StoreWF s)
    (hgood : ∀ r ∈ p.review_logs, ∃ t, r.createdAt = RawTime.good t) :
    (import_payload (import_payload s p n1).1 p n2).2.addedVocabs = 0 ∧
    (import_payload (import_payload s p n1).1 p n2).2.addedLogs = 0 := by
  have hs1wf : StoreWF (import_payload s p n1).1 :=
    (foldVocab_WF n1 (sortBy rawVocabLe p.vocabs)
      { store := s, mapping := [], addedVocabs := 0, updatedVocabs := 0,
        conflicts := 0 } hwf)
  obtain ⟨hmapeq, hadd2, hids2⟩ := vocabLoop_sim n1 n2 (sortBy rawVocabLe p.vocabs)
    { store := s, mapping := [], addedVocabs := 0, updatedVocabs := 0, conflicts := 0 }
    { store := (import_payload s p n1).1, mapping := [], addedVocabs := 0,
      updatedVocabs := 0, conflicts := 0 }
    hwf hs1wf rfl rfl (fun _ => rfl)
  refine ⟨hadd2, ?_⟩
  -- the run-2 log phase starts from the hash set that run 1 finished with
  have hlogs2 : (vocabPhase (import_payload s p n1).1 p n2).store.reviewLogs =
      (import_payload s p n1).1.reviewLogs :=
    foldVocab_reviewLogs n2 _ _
  have hlogs1mid : (vocabPhase s p n1).store.reviewLogs = s.reviewLogs :=
    foldVocab_reviewLogs n1 _ _
  obtain ⟨hinv1, _, _⟩ := logLoop_invariant
    (vocabPhase s p n1).store.vocabs (vocabPhase s p n1).mapping n1
    ((vocabPhase s p n1).store.reviewLogs.map logFp)
    (sortBy rawLogLe p.review_logs)
    { hashes := (vocabPhase s p n1).store.reviewLogs.map logFp, toInsert := [] }
    (by simp) (by simp) (by simp)
  -- run 2 resolves exactly as run 1 did
  have hidseq : (vocabPhase (import_payload s p n1).1 p n2).store.vocabs.map
        (fun v => v.id) =
      (vocabPhase s p n1).store.vocabs.map (fun v => v.id) := hids2
  have hresolve : ∀ sid,
      resolveLogVocab (vocabPhase (import_payload s p n1).1 p n2).store.vocabs
        (vocabPhase (import_payload s p n1).1 p n2).mapping sid =
      resolveLogVocab (vocabPhase s p n1).store.vocabs
        (vocabPhase s p n1).mapping sid := by
    intro sid
    rw [show (vocabPhase (import_payload s p n1).1 p n2).mapping =
        (vocabPhase s p n1).mapping from hmapeq]
    exact resolveLogVocab_congr _ _ _ sid hidseq
  -- every resolvable incoming log is already fingerprinted in run 1's result
  have hcover : ∀ r ∈ sortBy rawLogLe p.review_logs, ∀ lid,
      resolveLogVocab (vocabPhase (import_payload s p n1).1 p n2).store.vocabs
        (vocabPhase (import_payload s p n1).1 p n2).mapping r.vocabId = some lid →
      logFp (normalizeLog lid r n2) ∈
        (import_payload s p n1).1.reviewLogs.map logFp := by
    intro r hr lid hres
    rw [hresolve r.vocabId] at hres
    obtain ⟨t, ht⟩ := hgood r ((mem_sortBy rawLogLe r p.review_logs).mp hr)
    rw [normalizeLog_time lid r n1 n2 t ht]
    have hc := logLoop_covers (vocabPhase s p n1).store.vocabs
      (vocabPhase s p n1).mapping n1 (sortBy rawLogLe p.review_logs)
      { hashes := (vocabPhase s p n1).store.reviewLogs.map logFp, toInsert := [] }
      r lid hr hres
    rw [hinv1] at hc
    show logFp (normalizeLog lid r n1) ∈
      ((vocabPhase s p n1).store.reviewLogs ++
        (logPhase (vocabPhase s p n1).store (vocabPhase s p n1).mapping p n1).toInsert).map logFp
    rw [List.map_append]
    exact hc
  have hskip : logPhase (vocabPhase (import_payload s p n1).1 p n2).store
      (vocabPhase (import_payload s p n1).1 p n2).mapping p n2 =
      { hashes := (vocabPhase (import_payload s p n1).1 p n2).store.reviewLogs.map logFp
        toInsert := [] } := by
    unfold logPhase
    apply logLoop_skip_all
    intro r hr lid hres
    show logFp (normalizeLog lid r n2) ∈
      (vocabPhase (import_payload s p n1).1 p n2).store.reviewLogs.map logFp
    rw [hlogs2]
    exact hcover r hr lid hres
  show (logPhase (vocabPhase (import_payload s p n1).1 p n2).store
      (vocabPhase (import_payload s p n1).1 p n2).mapping p n2).toInsert.length = 0
  rw [hskip]
  rfl

/-- Witness for the amended C2 at an empty store and empty payload. -/
theorem C2_import_idempotent_good_timestamps_witness :
    StoreWF ⟨[], [], [], 0⟩ ∧
      ((import_payload (import_payload ⟨[], [], [], 0⟩ ⟨"v1", [], [], []⟩ 3).1
          ⟨"v1", [], [], []⟩ 7).2.addedVocabs = 0 ∧
       (import_payload (import_payload ⟨[], [], [], 0⟩ ⟨"v1", [], [], []⟩ 3).1
          ⟨"v1", [], [], []⟩ 7).2.addedLogs = 0) :=
  ⟨by decide, C2_import_idempotent_good_timestamps ⟨[], [], [], 0⟩
    ⟨"v1", [], [], []⟩ 3 7 (by decide) (by simp)⟩

/-- Counterexample to C2 as stated: a review log with an unparsable
`createdAt` is stamped with the current time, so a second import at a
later time computes a fresh fingerprint and re-inserts it
(`addedLogs = 1`, not 0). -/
theorem C2_counterexample_bad_timestamp :
    ¬((import_payload (import_payload
        ⟨[{ id := 0, term := "hello", termNormalized := "hello", meanings := [],
            ipa := none, exampleEn := none, exampleVi := none, mnemonic := none,
            tags := [], collocations := [], phrases := [], wordFamily := [],
            topics := [], cefrLevel := none, ieltsBand := none, createdAt := 0,
            updatedAt := 0, easeFactor := 1, intervalDays := 0, repetitions := 0,
            lapses := 0, dueAt := some 0, lastReviewedAt := none, readdCount := 0,
            lastReaddAt := none }], [], [], 1⟩
        ⟨"v1", [],
         [{ vocabId := SourceId.oid 0, mode := none, questionType := none,
            grade := none, userAnswer := none, isNearCorrect := none,
            createdAt := RawTime.bad "not-a-date" }], []⟩ 100).1
      ⟨"v1", [],
       [{ vocabId := SourceId.oid 0, mode := none, questionType := none,
          grade := none, userAnswer := none, isNearCorrect := none,
          createdAt := RawTime.bad "not-a-date" }], []⟩ 200).2.addedVocabs = 0 ∧
      (import_payload (import_payload
        ⟨[{ id := 0, term := "hello", termNormalized := "hello", meanings := [],
            ipa := none, exampleEn := none, exampleVi := none, mnemonic := none,
            tags := [], collocations := [], phrases := [], wordFamily := [],
            topics := [], cefrLevel := none, ieltsBand := none, createdAt := 0,
            updatedAt := 0, easeFactor := 1, intervalDays := 0, repetitions := 0,
            lapses := 0, dueAt := some 0, lastReviewedAt := none, readdCount := 0,
            lastReaddAt := none }], [], [], 1⟩
        ⟨"v1", [],
         [{ vocabId := SourceId.oid 0, mode := none, questionType := none,
            grade := none, userAnswer := none, isNearCorrect := none,
            createdAt := RawTime.bad "not-a-date" }], []⟩ 100).1
      ⟨"v1", [],
       [{ vocabId := SourceId.oid 0, mode := none, questionType := none,
          grade := none, userAnswer := none, isNearCorrect := none,
          createdAt := RawTime.bad "not-a-date" }], []⟩ 200).2.addedLogs = 0) := by
  decide

end VocabApp
